import Mathlib

/-!
Verification of the retrofit warehouse-conversion core against its
natural-language specification.

The embedding below is a shallow model of the Python sources:
* `retrofit_framework/models/warehouse.py` — data model and pydantic validation,
* `retrofit_framework/core/converter.py` — navigation graph, Floyd–Warshall
  distance matrix, feasibility scoring,
* `retrofit_framework/data/layout_a.py` — the Layout A sample warehouse,
* `mathematical_foundations/warehouse_math_foundations.py` — travel-time model
  and optimization-objective weights.

Python floats are modelled as rationals (`ℚ`); `float('inf')` is modelled by
`Option ℚ` with `none` standing for +∞.  Python's `round(x, 2)` is modelled by
rounding to the nearest multiple of 1/100 (the half-even/half-up difference at
exact ties is never exercised by any statement below).
-/

namespace Retrofit

/-- `ZoneType` enum of models/warehouse.py. -/
inductive ZoneType where
  | pickup
  | drop
  | storage
  | charging
  | aisle
  | crossover
deriving DecidableEq, Repr

/-- `NodeType` enum of models/warehouse.py. -/
inductive NodeType where
  | pickup
  | drop
  | intersection
  | aisle_entry
  | aisle_exit
  | charging
  | waypoint
  | staging
  | maintenance
deriving DecidableEq, Repr

/-- `Node` model of models/warehouse.py (a navigation-graph node). -/
structure Node where
  id : String
  x : ℚ
  y : ℚ
  zone_type : ZoneType
  node_type : NodeType
deriving DecidableEq, Repr

/-- `Edge` model of models/warehouse.py. -/
structure Edge where
  id : String
  from_node : String
  to_node : String
  distance : ℚ
  bidirectional : Bool
deriving DecidableEq, Repr

/-- `Zone` model of models/warehouse.py. -/
structure Zone where
  id : String
  name : String
  x : ℚ
  y : ℚ
  width : ℚ
  height : ℚ
  zone_type : ZoneType
deriving DecidableEq, Repr

/-- `LegacyWarehouse` model of models/warehouse.py (raw field values; the
pydantic validation run at construction is modelled separately by
`validateLegacyWarehouse`). -/
structure LegacyWarehouse where
  name : String
  width : ℚ
  length : ℚ
  aisles : ℤ
  aisle_width : ℚ
  aisle_length : ℚ
  zones : List Zone
  nodes : List Node
  edges : List Edge
deriving DecidableEq, Repr

/-! ### Extended-rational arithmetic (`Option ℚ`, `none` = `float('inf')`) -/

/-- Addition with +∞ (`none`): matches Python float addition with `inf`. -/
def addD : Option ℚ → Option ℚ → Option ℚ
  | some a, some b => some (a + b)
  | _, _ => none

/-- Strict comparison with +∞ (`none`): `inf < x` is false, `x < inf` is true
for finite `x`, `inf < inf` is false — exactly Python's float ordering. -/
def ltD : Option ℚ → Option ℚ → Bool
  | none, _ => false
  | some _, none => true
  | some a, some b => decide (a < b)

/-- Non-strict comparison with +∞ (`none` is the top element). -/
def leD : Option ℚ → Option ℚ → Bool
  | _, none => true
  | none, some _ => false
  | some a, some b => decide (a ≤ b)

/-- An extended rational is nonnegative (+∞ counts as nonnegative). -/
def nonnegD : Option ℚ → Prop
  | none => True
  | some a => 0 ≤ a

/-! ### Distance matrix (`RetrofitConverter._compute_distance_matrix`) -/

/-- `node_to_idx = {node.id: i for i, node in enumerate(nodes)}`: a Python dict
comprehension in which a later node with the same id overwrites an earlier one,
so the *last* matching index wins. -/
def node_to_idx (w : LegacyWarehouse) (s : String) : Option (Fin w.nodes.length) :=
  (List.finRange w.nodes.length).foldl
    (fun acc i => if (w.nodes.get i).id = s then some i else acc) none

/-- The initial matrix: `inf` everywhere, `0.0` on the diagonal. -/
def distInit (n : ℕ) : Fin n → Fin n → Option ℚ :=
  fun i j => if i = j then some 0 else none

/-- Seeding one direct edge (converter.py lines 163–169): plain assignment
`dist[from_idx][to_idx] = edge.distance` (an overwrite, not a minimum), the
reverse direction likewise when the edge is bidirectional; edges whose
endpoints do not resolve to node indices are skipped. -/
def seedEdge (w : LegacyWarehouse)
    (D : Fin w.nodes.length → Fin w.nodes.length → Option ℚ) (e : Edge) :
    Fin w.nodes.length → Fin w.nodes.length → Option ℚ :=
  match node_to_idx w e.from_node, node_to_idx w e.to_node with
  | some f, some t =>
      let D1 := fun i j => if i = f ∧ j = t then some e.distance else D i j
      if e.bidirectional then
        fun i j => if i = t ∧ j = f then some e.distance else D1 i j
      else D1
  | _, _ => D

/-- The seeded matrix: diagonal zeros, then every edge written in list order. -/
def seedMatrix (w : LegacyWarehouse) :
    Fin w.nodes.length → Fin w.nodes.length → Option ℚ :=
  w.edges.foldl (seedEdge w) (distInit w.nodes.length)

/-- One innermost Floyd–Warshall update (converter.py lines 172–176):
`if dist[i][k] + dist[k][j] < dist[i][j]: dist[i][j] = dist[i][k] + dist[k][j]`,
an in-place conditional write of the single cell `(i, j)`. -/
def fwStep {n : ℕ} (D : Fin n → Fin n → Option ℚ) (k i j : Fin n) :
    Fin n → Fin n → Option ℚ :=
  if ltD (addD (D i k) (D k j)) (D i j) then
    fun x y => if x = i ∧ y = j then addD (D i k) (D k j) else D x y
  else D

/-- The inner `for j in range(n)` loop for fixed `k`, `i`. -/
def fwInner {n : ℕ} (D : Fin n → Fin n → Option ℚ) (k i : Fin n) :
    Fin n → Fin n → Option ℚ :=
  (List.finRange n).foldl (fun D j => fwStep D k i j) D

/-- The `for i in range(n)` loop for fixed `k` (one full relaxation pass). -/
def fwPass {n : ℕ} (D : Fin n → Fin n → Option ℚ) (k : Fin n) :
    Fin n → Fin n → Option ℚ :=
  (List.finRange n).foldl (fun D i => fwInner D k i) D

/-- The full triple loop `for k: for i: for j:` of converter.py lines 172–176. -/
def floydWarshall {n : ℕ} (D : Fin n → Fin n → Option ℚ) :
    Fin n → Fin n → Option ℚ :=
  (List.finRange n).foldl fwPass D

/-- The internal matrix after seeding and full relaxation. -/
def fwMatrix (w : LegacyWarehouse) :
    Fin w.nodes.length → Fin w.nodes.length → Option ℚ :=
  floydWarshall (seedMatrix w)

/-- Python `round(x, 2)` (ties never arise in the statements below). -/
def round2 (q : ℚ) : ℚ := ((round (q * 100) : ℤ) : ℚ) / 100

/-- The external distance matrix (converter.py lines 178–186), indexed by node
position: unreachable pairs (still `inf`) become the sentinel `-1.0`, reachable
distances are rounded to 2 decimal places.  With unique node ids this is
exactly the id-keyed nested dict the Python code returns. -/
def distance_matrix (w : LegacyWarehouse) :
    Fin w.nodes.length → Fin w.nodes.length → ℚ :=
  fun i j =>
    match fwMatrix w i j with
    | none => -1
    | some q => round2 q

/-! ### Navigation graph (`RetrofitConverter._build_navigation_graph`) -/

/-- The adjacency list of `_build_navigation_graph` at key `u` (converter.py
lines 122–132): starts empty for every node id and, for each edge in order,
appends `to_node` to `graph[from_node]` and, if bidirectional, `from_node` to
`graph[to_node]`. -/
def navigation_graph (w : LegacyWarehouse) (u : String) : List String :=
  w.edges.foldl
    (fun acc e =>
      acc ++ (if e.from_node = u then [e.to_node] else []) ++
        (if e.bidirectional && (e.to_node = u) then [e.from_node] else []))
    []

/-- Reachability in the navigation-graph adjacency: the reflexive-transitive
closure of "`v` is listed among `u`'s neighbours". -/
def ReachableG (w : LegacyWarehouse) : String → String → Prop :=
  Relation.ReflTransGen (fun u v => v ∈ navigation_graph w u)

/-- A single traversable hop of weight `d`: some edge links `u` to `v` in the
forward direction, or in the reverse direction when bidirectional. -/
def EdgeStep (w : LegacyWarehouse) (u v : String) (d : ℚ) : Prop :=
  ∃ e ∈ w.edges,
    (e.from_node = u ∧ e.to_node = v ∧ e.distance = d) ∨
      (e.bidirectional = true ∧ e.to_node = u ∧ e.from_node = v ∧ e.distance = d)

/-- `WalkDist w u v d`: there is a path (walk) from `u` to `v` of total edge
distance `d` in the warehouse's navigation graph. -/
inductive WalkDist (w : LegacyWarehouse) : String → String → ℚ → Prop where
  | refl (u : String) : WalkDist w u u 0
  | cons {u v t : String} {d₁ d₂ : ℚ} :
      EdgeStep w u v d₁ → WalkDist w v t d₂ → WalkDist w u t (d₁ + d₂)

/-- `d` is the minimum total edge distance over all paths from `u` to `v`. -/
def IsMinPathDist (w : LegacyWarehouse) (u v : String) (d : ℚ) : Prop :=
  WalkDist w u v d ∧ ∀ d', WalkDist w u v d' → d ≤ d'

/-! ### Auxiliary views of the Floyd–Warshall loop, used by the proofs -/

/-- The value the relaxation writes at cell `(i, j)` of pass `k`:
`min(dist[i][j], dist[i][k] + dist[k][j])` in conditional-write form. -/
def simulVal {n : ℕ} (D : Fin n → Fin n → Option ℚ) (k i j : Fin n) : Option ℚ :=
  if ltD (addD (D i k) (D k j)) (D i j) then addD (D i k) (D k j) else D i j

/-- Pass `k` as a simultaneous update of every cell.  Because row `k` and
column `k` never change during the in-place pass `k` (their candidate values
equal their current values), this agrees with `fwPass`; the agreement is
proved below, not assumed. -/
def fwSimulPass {n : ℕ} (D : Fin n → Fin n → Option ℚ) (k : Fin n) :
    Fin n → Fin n → Option ℚ :=
  fun i j => simulVal D k i j

/-- Every entry of the matrix is nonnegative (with `none` = +∞ counting as
nonnegative). -/
def NonnegMat {n : ℕ} (D : Fin n → Fin n → Option ℚ) : Prop :=
  ∀ i j, nonnegD (D i j)

/-- The matrix is symmetric. -/
def SymmMat {n : ℕ} (D : Fin n → Fin n → Option ℚ) : Prop :=
  ∀ i j, D i j = D j i

/-- The triangle inequality through the fixed intermediate vertex `k`. -/
def TriangleThru {n : ℕ} (D : Fin n → Fin n → Option ℚ) (k : Fin n) : Prop :=
  ∀ i j, leD (D i j) (addD (D i k) (D k j)) = true

/-- One traversable hop between node positions, with endpoints resolved the
way `_compute_distance_matrix` resolves them (`node_to_idx`). -/
def AdjIdx (w : LegacyWarehouse) (i j : Fin w.nodes.length) : Prop :=
  ∃ e ∈ w.edges,
    (node_to_idx w e.from_node = some i ∧ node_to_idx w e.to_node = some j) ∨
      (e.bidirectional = true ∧ node_to_idx w e.to_node = some i ∧
        node_to_idx w e.from_node = some j)

/-- Reachability between node positions. -/
def ReachIdx (w : LegacyWarehouse) : Fin w.nodes.length → Fin w.nodes.length → Prop :=
  Relation.ReflTransGen (AdjIdx w)

/-! ### Warehouse validity predicates (data-model invariants of §3) -/

/-- Every edge's endpoints reference existing node ids. -/
def EndpointsExist (w : LegacyWarehouse) : Prop :=
  ∀ e ∈ w.edges,
    (∃ nd ∈ w.nodes, nd.id = e.from_node) ∧ (∃ nd ∈ w.nodes, nd.id = e.to_node)

/-- Every edge distance is positive (pydantic `gt=0` on `Edge.distance`). -/
def PositiveEdges (w : LegacyWarehouse) : Prop :=
  ∀ e ∈ w.edges, 0 < e.distance

/-- Every edge is bidirectional. -/
def AllBidirectional (w : LegacyWarehouse) : Prop :=
  ∀ e ∈ w.edges, e.bidirectional = true

/-- All node ids are distinct. -/
def UniqueNodeIds (w : LegacyWarehouse) : Prop :=
  (w.nodes.map Node.id).Nodup

/-! ### Feasibility scorer (`RetrofitConverter._calculate_feasibility_score`) -/

/-- Factor 1, aisle width (converter.py lines 336–404): thresholds
3.5 / 3.0 / 2.5 / 2.0 metres. -/
def aisle_width_score (w : LegacyWarehouse) : ℚ :=
  if (3.5 : ℚ) ≤ w.aisle_width then 4
  else if (3 : ℚ) ≤ w.aisle_width then 3
  else if (2.5 : ℚ) ≤ w.aisle_width then 2
  else if (2 : ℚ) ≤ w.aisle_width then 1
  else 0

/-- Status string of factor 1 (same branch structure as `aisle_width_score`). -/
def aisle_width_status (w : LegacyWarehouse) : String :=
  if (3.5 : ℚ) ≤ w.aisle_width then "optimal"
  else if (3 : ℚ) ≤ w.aisle_width then "acceptable"
  else if (2.5 : ℚ) ≤ w.aisle_width then "marginal"
  else if (2 : ℚ) ≤ w.aisle_width then "poor"
  else "inadequate"

/-- `[z for z in warehouse.zones if z.zone_type == ZoneType.AISLE]`. -/
def aisle_zones (w : LegacyWarehouse) : List Zone :=
  w.zones.filter (fun z => decide (z.zone_type = ZoneType.aisle))

/-- `max(l)` on a nonempty Python list (never called on `[]` by the source;
the `[]` value is an arbitrary default). -/
def pyMax : List ℚ → ℚ
  | [] => 0
  | h :: t => t.foldl max h

/-- `min(l)` on a nonempty Python list. -/
def pyMin : List ℚ → ℚ
  | [] => 0
  | h :: t => t.foldl min h

/-- `[x[i+1] - x[i] for i in range(len(x) - 1)]`. -/
def consecutiveDiffs (l : List ℚ) : List ℚ :=
  (l.zip l.tail).map (fun p => p.2 - p.1)

/-- `len(set(widths)) == 1` (converter.py line 421). -/
def width_consistent (az : List Zone) : Bool :=
  (az.map Zone.width).dedup.length == 1

/-- `len(spacings) == 0 or (max(spacings) - min(spacings)) < 1.0`
(converter.py line 422), where `spacings` are the consecutive differences of
the sorted aisle x-positions. -/
def spacing_consistent (az : List Zone) : Bool :=
  let xs := List.insertionSort (· ≤ ·) (az.map Zone.x)
  let spacings := consecutiveDiffs xs
  spacings.length == 0 || decide (pyMax spacings - pyMin spacings < 1)

/-- Factor 2, layout regularity (converter.py lines 412–458). -/
def regularity_score (w : LegacyWarehouse) : ℚ :=
  let az := aisle_zones w
  if 2 ≤ az.length then
    if width_consistent az && spacing_consistent az then 2.5
    else if width_consistent az || spacing_consistent az then 1.5
    else 0.5
  else if az.length = 1 then 1
  else 0

/-- Status string of factor 2. -/
def regularity_status (w : LegacyWarehouse) : String :=
  let az := aisle_zones w
  if 2 ≤ az.length then
    if width_consistent az && spacing_consistent az then "optimal"
    else if width_consistent az || spacing_consistent az then "acceptable"
    else "poor"
  else if az.length = 1 then "marginal"
  else "inadequate"

/-- `utilization = aisle_area / total_area if total_area > 0 else 0`
(converter.py lines 468–470). -/
def utilization (w : LegacyWarehouse) : ℚ :=
  let total_area := w.width * w.length
  if 0 < total_area then ((w.aisles : ℚ) * w.aisle_width * w.aisle_length) / total_area
  else 0

/-- Factor 3, space utilization (converter.py lines 472–511). -/
def space_score (w : LegacyWarehouse) : ℚ :=
  let u := utilization w
  if (0.3 : ℚ) ≤ u ∧ u ≤ (0.5 : ℚ) then 2
  else if ((0.2 : ℚ) ≤ u ∧ u < (0.3 : ℚ)) ∨ ((0.5 : ℚ) < u ∧ u ≤ (0.6 : ℚ)) then 1.5
  else 1

/-- Status string of factor 3. -/
def space_status (w : LegacyWarehouse) : String :=
  let u := utilization w
  if (0.3 : ℚ) ≤ u ∧ u ≤ (0.5 : ℚ) then "optimal"
  else if ((0.2 : ℚ) ≤ u ∧ u < (0.3 : ℚ)) ∨ ((0.5 : ℚ) < u ∧ u ≤ (0.6 : ℚ)) then "acceptable"
  else if (0.6 : ℚ) < u then "poor"
  else "marginal"

/-- `next((z for z in warehouse.zones if z.zone_type == ZoneType.PICKUP), None)`. -/
def pickup_zone (w : LegacyWarehouse) : Option Zone :=
  w.zones.find? (fun z => decide (z.zone_type = ZoneType.pickup))

/-- `next((z for z in warehouse.zones if z.zone_type == ZoneType.DROP), None)`. -/
def drop_zone (w : LegacyWarehouse) : Option Zone :=
  w.zones.find? (fun z => decide (z.zone_type = ZoneType.drop))

/-- Factor 4, accessibility (converter.py lines 521–543). -/
def accessibility_score (w : LegacyWarehouse) : ℚ :=
  match pickup_zone w, drop_zone w with
  | some _, some _ => 1.5
  | none, none => 0
  | _, _ => 1

/-- Status string of factor 4. -/
def accessibility_status (w : LegacyWarehouse) : String :=
  match pickup_zone w, drop_zone w with
  | some _, some _ => "optimal"
  | none, none => "inadequate"
  | _, _ => "marginal"

/-- Python `round(x, 1)`. -/
def round1 (q : ℚ) : ℚ := ((round (q * 10) : ℤ) : ℚ) / 10

/-- Modelled from the spec: the `FeasibilityFactor` record (§3, "per-factor
results (name, score, max, weight, status, detail)").  The class is imported
by converter.py from `models.warehouse` but its definition is not among the
source files; the free-prose `detail` field is not modelled. -/
structure FeasibilityFactor where
  name : String
  score : ℚ
  max_score : ℚ
  weight : String
  status : String
deriving DecidableEq, Repr

/-- Modelled from the spec: the `FeasibilityAssessment` record (§3, "numeric
score (0.0–10.0, one decimal), letter grade (A–F), label, verdict text,
boolean feasible (score ≥ 5.0), ordered list of per-factor results").  The
class is imported by converter.py from `models.warehouse` but its definition
is not among the source files; the free-prose issue/action lists are not
modelled. -/
structure FeasibilityAssessment where
  score : ℚ
  grade : String
  label : String
  verdict : String
  is_feasible : Bool
  factors : List FeasibilityFactor
deriving DecidableEq, Repr

/-- `RetrofitConverter._calculate_feasibility_score` (converter.py lines
306–588): sum of the four factor scores, rounded to one decimal, graded by
fixed bands, feasible iff the final score is at least 5.0. -/
def calculate_feasibility_score (w : LegacyWarehouse) : FeasibilityAssessment :=
  let aisle := aisle_width_score w
  let reg := regularity_score w
  let space := space_score w
  let acc := accessibility_score w
  let final_score := round1 (aisle + reg + space + acc)
  let glv : String × String × String :=
    if (9 : ℚ) ≤ final_score then ("A", "Excellent", "Ready for retrofit — minimal changes needed")
    else if (7 : ℚ) ≤ final_score then ("B", "Good", "Feasible with minor adjustments")
    else if (5 : ℚ) ≤ final_score then
      ("C", "Marginal", "Feasible but needs significant work before AGV deployment")
    else if (3 : ℚ) ≤ final_score then
      ("D", "Poor", "Major retrofitting required before any AGV operation")
    else ("F", "Fail", "Not feasible — complete warehouse redesign required")
  { score := final_score
    grade := glv.1
    label := glv.2.1
    verdict := glv.2.2
    is_feasible := decide ((5 : ℚ) ≤ final_score)
    factors :=
      [⟨"Aisle Width", aisle, 4, "40%", aisle_width_status w⟩,
        ⟨"Layout Regularity", reg, 2.5, "25%", regularity_status w⟩,
        ⟨"Space Utilization", space, 2, "20%", space_status w⟩,
        ⟨"Accessibility", acc, 1.5, "15%", accessibility_status w⟩] }

/-! ### Layout A (`retrofit_framework/data/layout_a.py`) -/

/-- `edge_{counter:03d}` id formatting. -/
def layout_a_edge_id (n : ℕ) : String :=
  "edge_" ++ (if n < 10 then "00" else if n < 100 then "0" else "") ++ toString n

/-- `aisle_spacing = (width - 6.0) / (num_aisles + 1)` for Layout A:
`(20 - 6) / (5 + 1) = 7/3`. -/
def layout_a_spacing : ℚ := (20 - 6) / (5 + 1)

/-- The `i`-th (0-based) aisle zone of Layout A:
`x = 6.0 + (i + 1) * aisle_spacing - aisle_width / 2`, `y = 5.0`. -/
def layout_a_aisle_zone (i : ℕ) : Zone :=
  { id := "zone_aisle_" ++ toString (i + 1)
    name := "Aisle " ++ toString (i + 1)
    x := 6 + ((i : ℚ) + 1) * layout_a_spacing - 3 / 2
    y := 5
    width := 3
    height := 50
    zone_type := ZoneType.aisle }

/-- Layout A zones: pickup, drop, then the five aisle zones. -/
def layout_a_zones : List Zone :=
  [⟨"zone_pickup", "Pickup Zone", 0, 0, 5, 5, ZoneType.pickup⟩,
    ⟨"zone_drop", "Drop Zone", 15, 55, 5, 5, ZoneType.drop⟩] ++
    (List.range 5).map layout_a_aisle_zone

/-- The x-coordinate of the `i`-th (1-based) aisle's node column:
`6.0 + i * aisle_spacing`. -/
def layout_a_aisle_x (i : ℕ) : ℚ := 6 + (i : ℚ) * layout_a_spacing

/-- Layout A nodes: pickup centre, drop centre, then entry/mid/exit per aisle. -/
def layout_a_nodes : List Node :=
  [⟨"node_pickup", 5 / 2, 5 / 2, ZoneType.pickup, NodeType.pickup⟩,
    ⟨"node_drop", 35 / 2, 115 / 2, ZoneType.drop, NodeType.drop⟩] ++
    (List.range 5).flatMap (fun i =>
      [⟨"node_aisle_" ++ toString (i + 1) ++ "_entry", layout_a_aisle_x (i + 1), 5,
          ZoneType.aisle, NodeType.aisle_entry⟩,
        ⟨"node_aisle_" ++ toString (i + 1) ++ "_mid", layout_a_aisle_x (i + 1), 30,
          ZoneType.aisle, NodeType.waypoint⟩,
        ⟨"node_aisle_" ++ toString (i + 1) ++ "_exit", layout_a_aisle_x (i + 1), 55,
          ZoneType.aisle, NodeType.aisle_exit⟩])

/-- Layout A edges.  The two dock edges carry `round(math.sqrt(...), 2)`
distances; their already-rounded values (6.35 and 2.51) are inserted as
rational literals since the intermediate square roots are irrational.  The
in-aisle edges carry `round(aisle_length / 2, 2) = 25.0` and the crossover
edges `round(aisle_spacing, 2) = round(7/3, 2) = 2.33`. -/
def layout_a_edges : List Edge :=
  [⟨layout_a_edge_id 1, "node_pickup", "node_aisle_1_entry", 6.35, true⟩,
    ⟨layout_a_edge_id 2, "node_aisle_5_exit", "node_drop", 2.51, true⟩] ++
    (List.range 5).flatMap (fun i =>
      [⟨layout_a_edge_id (3 + 2 * i), "node_aisle_" ++ toString (i + 1) ++ "_entry",
          "node_aisle_" ++ toString (i + 1) ++ "_mid", 25, true⟩,
        ⟨layout_a_edge_id (4 + 2 * i), "node_aisle_" ++ toString (i + 1) ++ "_mid",
          "node_aisle_" ++ toString (i + 1) ++ "_exit", 25, true⟩]) ++
    (List.range 4).map (fun i =>
      ⟨layout_a_edge_id (13 + i), "node_aisle_" ++ toString (i + 1) ++ "_entry",
        "node_aisle_" ++ toString (i + 2) ++ "_entry", 2.33, true⟩) ++
    (List.range 4).map (fun i =>
      ⟨layout_a_edge_id (17 + i), "node_aisle_" ++ toString (i + 1) ++ "_mid",
        "node_aisle_" ++ toString (i + 2) ++ "_mid", 2.33, true⟩) ++
    (List.range 4).map (fun i =>
      ⟨layout_a_edge_id (21 + i), "node_aisle_" ++ toString (i + 1) ++ "_exit",
        "node_aisle_" ++ toString (i + 2) ++ "_exit", 2.33, true⟩)

/-- `create_layout_a_warehouse()` of data/layout_a.py. -/
def create_layout_a_warehouse : LegacyWarehouse :=
  { name := "Layout A - Traditional 5-Aisle Warehouse"
    width := 20
    length := 60
    aisles := 5
    aisle_width := 3
    aisle_length := 50
    zones := layout_a_zones
    nodes := layout_a_nodes
    edges := layout_a_edges }

/-! ### Construction-time validation (pydantic models of warehouse.py) -/

/-- `Zone` field validation in declaration order: the `validate_coordinates`
field validator on `x`, `y` ("Coordinates must be non-negative"), then the
`gt=0` constraints on `width`, `height` (pydantic's default message). -/
def validateZone (z : Zone) : Except String Unit :=
  if z.x < 0 then .error "Coordinates must be non-negative"
  else if z.y < 0 then .error "Coordinates must be non-negative"
  else if z.width ≤ 0 then .error "Input should be greater than 0"
  else if z.height ≤ 0 then .error "Input should be greater than 0"
  else .ok ()

/-- `Node` field validation: `validate_coordinates` on `x`, `y`. -/
def validateNode (nd : Node) : Except String Unit :=
  if nd.x < 0 then .error "Coordinates must be non-negative"
  else if nd.y < 0 then .error "Coordinates must be non-negative"
  else .ok ()

/-- `Edge` field validation: the `gt=0` constraint on `distance`. -/
def validateEdge (e : Edge) : Except String Unit :=
  if e.distance ≤ 0 then .error "Input should be greater than 0"
  else .ok ()

/-- Run a validator over a list, stopping at the first error. -/
def validateAll {α : Type} (f : α → Except String Unit) : List α → Except String Unit
  | [] => .ok ()
  | a :: t =>
    match f a with
    | .error msg => .error msg
    | .ok _ => validateAll f t

/-- Constructing a `LegacyWarehouse`: the `gt=0` constraints on `width`,
`length`, `aisles`, `aisle_width`, `aisle_length`, the nested `Zone` / `Node`
/ `Edge` field validation, and the three unique-id field validators of
warehouse.py lines 101–126.  No check relates edge endpoints to node ids. -/
def validateLegacyWarehouse (w : LegacyWarehouse) : Except String LegacyWarehouse :=
  if w.width ≤ 0 then .error "Input should be greater than 0"
  else if w.length ≤ 0 then .error "Input should be greater than 0"
  else if w.aisles ≤ 0 then .error "Input should be greater than 0"
  else if w.aisle_width ≤ 0 then .error "Input should be greater than 0"
  else if w.aisle_length ≤ 0 then .error "Input should be greater than 0"
  else
    match validateAll validateZone w.zones with
    | .error msg => .error msg
    | .ok _ =>
      if ¬ (w.zones.map Zone.id).Nodup then .error "Zone IDs must be unique"
      else
        match validateAll validateNode w.nodes with
        | .error msg => .error msg
        | .ok _ =>
          if ¬ (w.nodes.map Node.id).Nodup then .error "Node IDs must be unique"
          else
            match validateAll validateEdge w.edges with
            | .error msg => .error msg
            | .ok _ =>
              if ¬ (w.edges.map Edge.id).Nodup then .error "Edge IDs must be unique"
              else .ok w

/-! ### Optimization weights (`warehouse_math_foundations.py`, section 6) -/

/-- `OptimizationWeights` dataclass: the four objective weights. -/
structure OptimizationWeights where
  travel : ℚ
  time : ℚ
  energy : ℚ
  conflict : ℚ
deriving DecidableEq, Repr

/-- `OptimizationWeights.validate` (lines 940–944): raises unless the weights
sum to 1.0 within an absolute tolerance of 0.001. -/
def OptimizationWeights.validate (ws : OptimizationWeights) : Except String Unit :=
  if (0.001 : ℚ) < |ws.travel + ws.time + ws.energy + ws.conflict - 1| then
    .error "Weights must sum to 1.0"
  else .ok ()

/-- `ObjectiveFunction` state stored by `__init__` (lines 957–977). -/
structure ObjectiveFunction where
  weights : OptimizationWeights
  distance_matrix : List (List ℚ)
  node_ids : List String
  c_distance : ℚ
  c_time : ℚ
  c_battery : ℚ
  c_conflict : ℚ
deriving DecidableEq, Repr

/-- `ObjectiveFunction.__init__`: calls `weights.validate()` before storing the
evaluation state, so construction fails exactly when validation raises. -/
def mkObjectiveFunction (ws : OptimizationWeights) (dm : List (List ℚ))
    (ids : List String) (cpm cps cpb cpc : ℚ) : Except String ObjectiveFunction :=
  match ws.validate with
  | .error msg => .error msg
  | .ok _ => .ok ⟨ws, dm, ids, cpm, cps, cpb, cpc⟩

/-! ### Concrete instances used as test inputs -/

/-- A parallel edge from `a` to `b` of distance 3 listed before one of
distance 5: the seeding overwrite keeps the *last* distance, 5. -/
def eDup3 : Edge := ⟨"e1", "a", "b", 3, true⟩

/-- The second parallel edge (distance 5), processed after `eDup3`. -/
def eDup5 : Edge := ⟨"e2", "a", "b", 5, true⟩

/-- A two-node warehouse with two parallel edges between its nodes. -/
def wParallel : LegacyWarehouse :=
  { name := "parallel"
    width := 10
    length := 10
    aisles := 1
    aisle_width := 3
    aisle_length := 5
    zones := []
    nodes := [⟨"a", 0, 0, ZoneType.storage, NodeType.waypoint⟩,
      ⟨"b", 1, 0, ZoneType.storage, NodeType.waypoint⟩]
    edges := [eDup3, eDup5] }

/-- A two-node warehouse with no edges at all: both off-diagonal entries of
its distance matrix are the sentinel −1. -/
def wIsolated : LegacyWarehouse :=
  { name := "isolated"
    width := 10
    length := 10
    aisles := 1
    aisle_width := 3
    aisle_length := 5
    zones := []
    nodes := [⟨"a", 0, 0, ZoneType.storage, NodeType.waypoint⟩,
      ⟨"b", 1, 0, ZoneType.storage, NodeType.waypoint⟩]
    edges := [] }

/-- Three nodes, one bidirectional edge `a — b`, node `c` disconnected. -/
def wThree : LegacyWarehouse :=
  { name := "three"
    width := 10
    length := 10
    aisles := 1
    aisle_width := 3
    aisle_length := 5
    zones := []
    nodes := [⟨"a", 0, 0, ZoneType.storage, NodeType.waypoint⟩,
      ⟨"b", 1, 0, ZoneType.storage, NodeType.waypoint⟩,
      ⟨"c", 2, 0, ZoneType.storage, NodeType.waypoint⟩]
    edges := [⟨"e1", "a", "b", 2, true⟩] }

/-- A warehouse whose only flaw is an edge pointing at the node id `ghost`,
which no node carries. -/
def wDangling : LegacyWarehouse :=
  { name := "dangling"
    width := 10
    length := 10
    aisles := 1
    aisle_width := 3
    aisle_length := 5
    zones := []
    nodes := [⟨"a", 0, 0, ZoneType.storage, NodeType.waypoint⟩]
    edges := [⟨"e1", "a", "ghost", 1, true⟩] }

/-- A warehouse with a duplicated zone id. -/
def wDupZone : LegacyWarehouse :=
  { name := "dup"
    width := 10
    length := 10
    aisles := 1
    aisle_width := 3
    aisle_length := 5
    zones := [⟨"z1", "Zone 1", 0, 0, 2, 2, ZoneType.storage⟩,
      ⟨"z1", "Zone 2", 3, 3, 2, 2, ZoneType.storage⟩]
    nodes := []
    edges := [] }

/-- A warehouse with exactly two aisle zones of different widths at arbitrary
positions. -/
def wTwoAisles : LegacyWarehouse :=
  { name := "two-aisles"
    width := 20
    length := 30
    aisles := 2
    aisle_width := 3
    aisle_length := 20
    zones := [⟨"a1", "Aisle 1", 2, 0, 3, 20, ZoneType.aisle⟩,
      ⟨"a2", "Aisle 2", 9, 0, 4, 20, ZoneType.aisle⟩]
    nodes := []
    edges := [] }

end Retrofit

/-! ### Travel-time model (`warehouse_math_foundations.py`, lines 116–188) -/

namespace RetrofitReal

/-- `TravelTimeCalculator.__init__` state: cruise speed, acceleration and
per-turn penalty, modelled over the reals since the short-distance branch
takes a square root. -/
structure TravelTimeCalculator where
  v_cruise : ℝ
  acceleration : ℝ
  t_turn : ℝ

/-- The time-breakdown dictionary returned by `TravelTimeCalculator.calculate`. -/
structure TravelTimeBreakdown where
  total_time : ℝ
  acceleration_time : ℝ
  cruise_time : ℝ
  deceleration_time : ℝ
  turn_time : ℝ
  queue_time : ℝ
  actual_max_speed : ℝ
  distance : ℝ

/-- `TravelTimeCalculator.calculate` (lines 141–188): trapezoidal speed profile
when the distance admits reaching cruise speed (`distance >= 2 * d_accel` with
`d_accel = v^2 / (2a)`), otherwise a triangular profile peaking at
`sqrt(a * d)`; turns and queue wait are added to the total. -/
noncomputable def TravelTimeCalculator.calculate (c : TravelTimeCalculator)
    (distance : ℝ) (n_turns : ℕ) (queue_wait : ℝ) : TravelTimeBreakdown :=
  let d_accel := c.v_cruise ^ 2 / (2 * c.acceleration)
  if 2 * d_accel ≤ distance then
    let t_accel := c.v_cruise / c.acceleration
    let t_decel := c.v_cruise / c.acceleration
    let d_cruise := distance - 2 * d_accel
    let t_cruise := d_cruise / c.v_cruise
    { total_time := t_accel + t_cruise + t_decel + (n_turns : ℝ) * c.t_turn + queue_wait
      acceleration_time := t_accel
      cruise_time := t_cruise
      deceleration_time := t_decel
      turn_time := (n_turns : ℝ) * c.t_turn
      queue_time := queue_wait
      actual_max_speed := c.v_cruise
      distance := distance }
  else
    let actual_max_speed := Real.sqrt (c.acceleration * distance)
    let t_accel := actual_max_speed / c.acceleration
    let t_decel := t_accel
    let t_cruise : ℝ := 0
    { total_time := t_accel + t_cruise + t_decel + (n_turns : ℝ) * c.t_turn + queue_wait
      acceleration_time := t_accel
      cruise_time := t_cruise
      deceleration_time := t_decel
      turn_time := (n_turns : ℝ) * c.t_turn
      queue_time := queue_wait
      actual_max_speed := actual_max_speed
      distance := distance }

end RetrofitReal

/-! ## Theorems -/

namespace Retrofit

/-! ### Arithmetic of `Option ℚ` with `none` = +∞ -/

theorem leD_refl (a : Option ℚ) : leD a a = true := by
  cases a <;> simp [leD]

theorem leD_trans {a b c : Option ℚ} (h₁ : leD a b = true) (h₂ : leD b c = true) :
    leD a c = true := by
  cases a <;> cases b <;> cases c <;> simp_all [leD] <;> linarith

theorem leD_of_ltD {a b : Option ℚ} (h : ltD a b = true) : leD a b = true := by
  cases a <;> cases b <;> simp_all [ltD, leD] <;> linarith

theorem leD_of_not_ltD {a b : Option ℚ} (h : ltD a b = false) : leD b a = true := by
  cases a <;> cases b <;> simp_all [ltD, leD] <;> linarith

theorem addD_assoc (a b c : Option ℚ) : addD (addD a b) c = addD a (addD b c) := by
  cases a <;> cases b <;> cases c <;> simp [addD, add_assoc]

theorem addD_comm (a b : Option ℚ) : addD a b = addD b a := by
  cases a <;> cases b <;> simp [addD, add_comm]

theorem addD_mono_right {b c : Option ℚ} (a : Option ℚ) (h : leD b c = true) :
    leD (addD a b) (addD a c) = true := by
  cases a <;> cases b <;> cases c <;> simp_all [addD, leD] <;> linarith

theorem addD_mono_left {b c : Option ℚ} (a : Option ℚ) (h : leD b c = true) :
    leD (addD b a) (addD c a) = true := by
  cases a <;> cases b <;> cases c <;> simp_all [addD, leD] <;> linarith

theorem nonnegD_addD {a b : Option ℚ} (ha : nonnegD a) (hb : nonnegD b) :
    nonnegD (addD a b) := by
  cases a <;> cases b <;> simp_all [addD, nonnegD] <;> linarith

theorem leD_addD_of_nonneg {a : Option ℚ} (b : Option ℚ) (ha : nonnegD a) :
    leD b (addD a b) = true := by
  cases a <;> cases b <;> simp_all [addD, leD, nonnegD] <;> linarith

theorem leD_none_iff {a : Option ℚ} : leD none a = true ↔ a = none := by
  cases a <;> simp [leD]

theorem ne_none_of_leD {a b : Option ℚ} (h : leD a b = true) (hb : b ≠ none) :
    a ≠ none := by
  cases a <;> cases b <;> simp_all [leD]

theorem addD_ne_none {a b : Option ℚ} (ha : a ≠ none) (hb : b ≠ none) :
    addD a b ≠ none := by
  cases a <;> cases b <;> simp_all [addD]

theorem ltD_addD_nonneg_right {a c : Option ℚ} (hc : nonnegD c) :
    ltD (addD a c) a = false := by
  cases a <;> cases c <;> simp_all [addD, ltD, nonnegD] <;> linarith

theorem ltD_addD_nonneg_left {a c : Option ℚ} (hc : nonnegD c) :
    ltD (addD c a) a = false := by
  cases a <;> cases c <;> simp_all [addD, ltD, nonnegD] <;> linarith

/-! ### The in-place pass equals the simultaneous pass -/

theorem fwStep_apply {n : ℕ} (D : Fin n → Fin n → Option ℚ) (k i j x y : Fin n) :
    fwStep D k i j x y = if x = i ∧ y = j then simulVal D k i j else D x y := by
  by_cases hxy : x = i ∧ y = j
  · obtain ⟨rfl, rfl⟩ := hxy
    by_cases hc : ltD (addD (D x k) (D k y)) (D x y) = true
    · simp [fwStep, simulVal, hc]
    · rw [Bool.not_eq_true] at hc
      simp [fwStep, simulVal, hc]
  · by_cases hc : ltD (addD (D i k) (D k j)) (D i j) = true
    · simp [fwStep, hc, hxy]
    · rw [Bool.not_eq_true] at hc
      simp [fwStep, hc, hxy]

theorem simulVal_col {n : ℕ} {D : Fin n → Fin n → Option ℚ} (hN : NonnegMat D)
    (k i : Fin n) : simulVal D k i k = D i k := by
  unfold simulVal
  rw [ltD_addD_nonneg_right (hN k k)]
  simp

theorem simulVal_row {n : ℕ} {D : Fin n → Fin n → Option ℚ} (hN : NonnegMat D)
    (k j : Fin n) : simulVal D k k j = D k j := by
  unfold simulVal
  rw [ltD_addD_nonneg_left (hN k k)]
  simp

theorem nonnegD_simulVal {n : ℕ} {D : Fin n → Fin n → Option ℚ} (hN : NonnegMat D)
    (k i j : Fin n) : nonnegD (simulVal D k i j) := by
  unfold simulVal
  split
  · exact nonnegD_addD (hN i k) (hN k j)
  · exact hN i j

theorem nonneg_fwStep {n : ℕ} {D : Fin n → Fin n → Option ℚ} (hN : NonnegMat D)
    (k i j : Fin n) : NonnegMat (fwStep D k i j) := by
  intro x y
  rw [fwStep_apply]
  by_cases hxy : x = i ∧ y = j
  · rw [if_pos hxy]
    exact nonnegD_simulVal hN k i j
  · rw [if_neg hxy]
    exact hN x y

theorem foldl_fwStep_cells {n : ℕ} (k : Fin n) :
    ∀ (cells : List (Fin n × Fin n)) (D : Fin n → Fin n → Option ℚ),
      cells.Nodup → NonnegMat D →
      List.foldl (fun E p => fwStep E k p.1 p.2) D cells =
        fun x y => if (x, y) ∈ cells then simulVal D k x y else D x y := by
  intro cells
  induction cells with
  | nil =>
    intro D _ _
    funext x y
    simp
  | cons p t ih =>
    intro D hnd hN
    obtain ⟨i, j⟩ := p
    rw [List.foldl_cons]
    have hmem : (i, j) ∉ t := (List.nodup_cons.mp hnd).1
    have hnd' : t.Nodup := (List.nodup_cons.mp hnd).2
    rw [ih (fwStep D k i j) hnd' (nonneg_fwStep hN k i j)]
    funext x y
    by_cases hxt : (x, y) ∈ t
    · rw [if_pos hxt, if_pos (List.mem_cons_of_mem _ hxt)]
      have hxy_ne : ¬(x = i ∧ y = j) := by
        rintro ⟨rfl, rfl⟩
        exact hmem hxt
      have h1 : fwStep D k i j x k = D x k := by
        rw [fwStep_apply]
        by_cases hxk : x = i ∧ k = j
        · obtain ⟨rfl, rfl⟩ := hxk
          rw [if_pos ⟨rfl, rfl⟩, simulVal_col hN]
        · rw [if_neg hxk]
      have h2 : fwStep D k i j k y = D k y := by
        rw [fwStep_apply]
        by_cases hky : k = i ∧ y = j
        · obtain ⟨rfl, rfl⟩ := hky
          rw [if_pos ⟨rfl, rfl⟩, simulVal_row hN]
        · rw [if_neg hky]
      have h3 : fwStep D k i j x y = D x y := by
        rw [fwStep_apply, if_neg hxy_ne]
      unfold simulVal
      rw [h1, h2, h3]
    · rw [if_neg hxt]
      by_cases hx : (x, y) = (i, j)
      · obtain ⟨hx1, hx2⟩ := Prod.ext_iff.mp hx
        cases hx1
        cases hx2
        rw [if_pos (List.mem_cons_self _ _), fwStep_apply, if_pos ⟨rfl, rfl⟩]
      · rw [if_neg, fwStep_apply, if_neg]
        · rintro ⟨rfl, rfl⟩
          exact hx rfl
        · intro hc
          rcases List.mem_cons.mp hc with hc | hc
          · exact hx hc
          · exact hxt hc

theorem foldl_nested {α β γ : Type} (f : γ → α → β → γ) :
    ∀ (l1 : List α) (l2 : List β) (c : γ),
      List.foldl (fun c a => List.foldl (fun c b => f c a b) c l2) c l1 =
        List.foldl (fun c p => f c p.1 p.2) c
          (l1.flatMap (fun a => l2.map (fun b => (a, b)))) := by
  intro l1
  induction l1 with
  | nil => intro l2 c; simp
  | cons a t ih =>
    intro l2 c
    rw [List.flatMap_cons, List.foldl_append, List.foldl_map, List.foldl_cons, ih]

/-- The list of all cells visited by one pass, in visit order. -/
theorem pairs_nodup {n : ℕ} :
    ((List.finRange n).flatMap (fun i => (List.finRange n).map (fun j => (i, j)))).Nodup := by
  rw [List.nodup_flatMap]
  constructor
  · intro i _
    exact (List.nodup_finRange n).map (fun a b h => (Prod.mk.injEq .. ▸ h).2)
  · refine List.Pairwise.imp ?_ (List.nodup_finRange n)
    intro a b hab
    simp only [Function.onFun, List.disjoint_left]
    rintro ⟨x, y⟩ hxa hxb
    simp only [List.mem_map] at hxa hxb
    obtain ⟨j1, _, h1⟩ := hxa
    obtain ⟨j2, _, h2⟩ := hxb
    exact hab ((Prod.ext_iff.mp h1).1.trans (Prod.ext_iff.mp h2).1.symm)

theorem pairs_mem {n : ℕ} (x y : Fin n) :
    (x, y) ∈ (List.finRange n).flatMap (fun i => (List.finRange n).map (fun j => (i, j))) := by
  rw [List.mem_flatMap]
  exact ⟨x, List.mem_finRange x, List.mem_map.mpr ⟨y, List.mem_finRange y, rfl⟩⟩

theorem fwPass_eq_simul {n : ℕ} {D : Fin n → Fin n → Option ℚ} (hN : NonnegMat D)
    (k : Fin n) : fwPass D k = fwSimulPass D k := by
  have h1 : fwPass D k = List.foldl (fun E p => fwStep E k p.1 p.2) D
      ((List.finRange n).flatMap (fun i => (List.finRange n).map (fun j => (i, j)))) := by
    unfold fwPass fwInner
    exact foldl_nested (fun E i j => fwStep E k i j) (List.finRange n) (List.finRange n) D
  rw [h1, foldl_fwStep_cells k _ D pairs_nodup hN]
  funext x y
  rw [if_pos (pairs_mem x y)]
  rfl

/-! ### Triangle inequality after full relaxation -/

theorem fwSimulPass_nonneg {n : ℕ} {D : Fin n → Fin n → Option ℚ} (hN : NonnegMat D)
    (k : Fin n) : NonnegMat (fwSimulPass D k) :=
  fun i j => nonnegD_simulVal hN k i j

theorem fwSimulPass_le {n : ℕ} (D : Fin n → Fin n → Option ℚ) (k i j : Fin n) :
    leD (fwSimulPass D k i j) (D i j) = true := by
  unfold fwSimulPass simulVal
  split
  · next h => exact leD_of_ltD h
  · exact leD_refl _

theorem fwSimulPass_le_cand {n : ℕ} (D : Fin n → Fin n → Option ℚ) (k i j : Fin n) :
    leD (fwSimulPass D k i j) (addD (D i k) (D k j)) = true := by
  unfold fwSimulPass simulVal
  split
  · exact leD_refl _
  · next h => exact leD_of_not_ltD (Bool.not_eq_true _ ▸ h)

theorem fwSimulPass_or {n : ℕ} (D : Fin n → Fin n → Option ℚ) (k i j : Fin n) :
    fwSimulPass D k i j = addD (D i k) (D k j) ∨ fwSimulPass D k i j = D i j := by
  unfold fwSimulPass simulVal
  split
  · exact Or.inl rfl
  · exact Or.inr rfl

theorem triangleThru_self {n : ℕ} {D : Fin n → Fin n → Option ℚ} (hN : NonnegMat D)
    (k : Fin n) : TriangleThru (fwSimulPass D k) k := by
  intro i j
  have hik : fwSimulPass D k i k = D i k := simulVal_col hN k i
  have hkj : fwSimulPass D k k j = D k j := simulVal_row hN k j
  rw [hik, hkj]
  exact fwSimulPass_le_cand D k i j

theorem triangleThru_persist {n : ℕ} {D : Fin n → Fin n → Option ℚ} (hN : NonnegMat D)
    {k₀ : Fin n} (hT : TriangleThru D k₀) (m : Fin n) :
    TriangleThru (fwSimulPass D m) k₀ := by
  intro i j
  have hcand : leD (fwSimulPass D m i j) (addD (D i m) (D m j)) = true :=
    fwSimulPass_le_cand D m i j
  have hcur : leD (fwSimulPass D m i j) (D i j) = true := fwSimulPass_le D m i j
  rcases fwSimulPass_or D m i k₀ with h1 | h1 <;>
    rcases fwSimulPass_or D m k₀ j with h2 | h2 <;> rw [h1, h2]
  · -- both entries replaced by their pass-m candidates
    have heq : addD (addD (D i m) (D m k₀)) (addD (D k₀ m) (D m j)) =
        addD (D i m) (addD (addD (D m k₀) (D k₀ m)) (D m j)) := by
      rw [addD_assoc, ← addD_assoc (D m k₀) (D k₀ m) (D m j)]
    rw [heq]
    refine leD_trans hcand (addD_mono_right (D i m) ?_)
    exact leD_addD_of_nonneg (D m j) (nonnegD_addD (hN m k₀) (hN k₀ m))
  · -- the (i, k₀) entry replaced, the (k₀, j) entry kept
    rw [addD_assoc]
    exact leD_trans hcand (addD_mono_right (D i m) (hT m j))
  · -- the (i, k₀) entry kept, the (k₀, j) entry replaced
    rw [← addD_assoc]
    exact leD_trans hcand (addD_mono_left (D m j) (hT i m))
  · -- both entries kept
    exact leD_trans hcur (hT i j)

theorem floydWarshall_invariants {n : ℕ} :
    ∀ (ks : List (Fin n)) (D : Fin n → Fin n → Option ℚ), NonnegMat D →
      ∀ (T0 : List (Fin n)), (∀ k ∈ T0, TriangleThru D k) →
      NonnegMat (List.foldl fwPass D ks) ∧
        ∀ k, k ∈ T0 ∨ k ∈ ks → TriangleThru (List.foldl fwPass D ks) k := by
  intro ks
  induction ks with
  | nil =>
    intro D hN T0 hT0
    refine ⟨hN, ?_⟩
    rintro k (hk | hk)
    · exact hT0 k hk
    · simp at hk
  | cons k t ih =>
    intro D hN T0 hT0
    rw [List.foldl_cons, fwPass_eq_simul hN k]
    have hT' : ∀ k₀ ∈ k :: T0, TriangleThru (fwSimulPass D k) k₀ := by
      intro k₀ hk₀
      rcases List.mem_cons.mp hk₀ with rfl | hk₀
      · exact triangleThru_self hN k₀
      · exact triangleThru_persist hN (hT0 k₀ hk₀) k
    obtain ⟨hN2, hT2⟩ := ih (fwSimulPass D k) (fwSimulPass_nonneg hN k) (k :: T0) hT'
    refine ⟨hN2, ?_⟩
    intro k₀ hk₀
    apply hT2
    rcases hk₀ with hk₀ | hk₀
    · exact Or.inl (List.mem_cons_of_mem _ hk₀)
    · rcases List.mem_cons.mp hk₀ with rfl | hk₀
      · exact Or.inl (List.mem_cons_self _ _)
      · exact Or.inr hk₀

/-! ### Generic fold-preservation helpers -/

theorem foldl_preserve {γ α : Type} (g : γ → α → γ) (P : γ → Prop)
    (hg : ∀ c a, P c → P (g c a)) :
    ∀ (l : List α) (c : γ), P c → P (List.foldl g c l) := by
  intro l
  induction l with
  | nil => intro c hc; exact hc
  | cons a t ih => intro c hc; exact ih (g c a) (hg c a hc)

theorem foldl_preserve_mem {γ α : Type} (g : γ → α → γ) (P : γ → Prop) (L : List α)
    (hg : ∀ c a, a ∈ L → P c → P (g c a)) :
    ∀ (l : List α), (∀ a ∈ l, a ∈ L) → ∀ c, P c → P (List.foldl g c l) := by
  intro l
  induction l with
  | nil => intro _ c hc; exact hc
  | cons a t ih =>
    intro hsub c hc
    exact ih (fun b hb => hsub b (List.mem_cons_of_mem _ hb)) (g c a)
      (hg c a (hsub a (List.mem_cons_self _ _)) hc)

/-! ### Seed-matrix invariants -/

theorem distInit_nonneg (n : ℕ) : NonnegMat (distInit n) := by
  intro i j
  unfold distInit
  split
  · norm_num [nonnegD]
  · trivial

theorem seedEdge_nonneg {w : LegacyWarehouse} {e : Edge} (he : 0 < e.distance)
    {D : Fin w.nodes.length → Fin w.nodes.length → Option ℚ} (hN : NonnegMat D) :
    NonnegMat (seedEdge w D e) := by
  unfold seedEdge
  cases node_to_idx w e.from_node with
  | none => exact hN
  | some f =>
    cases node_to_idx w e.to_node with
    | none => exact hN
    | some t =>
      simp only
      split
      · intro i j
        dsimp only
        split
        · exact le_of_lt he
        · split
          · exact le_of_lt he
          · exact hN i j
      · intro i j
        dsimp only
        split
        · exact le_of_lt he
        · exact hN i j

theorem seedMatrix_nonneg (w : LegacyWarehouse) (hpos : PositiveEdges w) :
    NonnegMat (seedMatrix w) := by
  unfold seedMatrix
  exact foldl_preserve_mem (seedEdge w) NonnegMat w.edges
    (fun D e he hN => seedEdge_nonneg (hpos e he) hN)
    w.edges (fun a ha => ha) (distInit w.nodes.length) (distInit_nonneg _)

theorem fwMatrix_nonneg (w : LegacyWarehouse) (hpos : PositiveEdges w) :
    NonnegMat (fwMatrix w) := by
  unfold fwMatrix floydWarshall
  exact (floydWarshall_invariants (List.finRange _) (seedMatrix w)
    (seedMatrix_nonneg w hpos) [] (by simp)).1

theorem fwMatrix_triangle (w : LegacyWarehouse) (hpos : PositiveEdges w)
    (i j k : Fin w.nodes.length) :
    leD (fwMatrix w i j) (addD (fwMatrix w i k) (fwMatrix w k j)) = true := by
  unfold fwMatrix floydWarshall
  obtain ⟨_, hT⟩ := floydWarshall_invariants (List.finRange _) (seedMatrix w)
    (seedMatrix_nonneg w hpos) [] (by simp)
  exact hT k (Or.inr (List.mem_finRange k)) i j

/-! ### Finite entries never become infinite -/

theorem ltD_ne_none {a b : Option ℚ} (h : ltD a b = true) : a ≠ none := by
  cases a <;> simp_all [ltD]

theorem addD_parts {a b : Option ℚ} (h : addD a b ≠ none) : a ≠ none ∧ b ≠ none := by
  cases a <;> cases b <;> simp_all [addD]

theorem fwStep_ne_none {n : ℕ} {D : Fin n → Fin n → Option ℚ} (k i j x y : Fin n)
    (h : D x y ≠ none) : fwStep D k i j x y ≠ none := by
  rw [fwStep_apply]
  by_cases hxy : x = i ∧ y = j
  · obtain ⟨rfl, rfl⟩ := hxy
    rw [if_pos ⟨rfl, rfl⟩]
    unfold simulVal
    split
    · next hc => exact ltD_ne_none hc
    · exact h
  · rw [if_neg hxy]
    exact h

theorem fwInner_ne_none {n : ℕ} (k i : Fin n) (D : Fin n → Fin n → Option ℚ)
    (x y : Fin n) (h : D x y ≠ none) : fwInner D k i x y ≠ none := by
  unfold fwInner
  exact foldl_preserve _ (fun E => E x y ≠ none)
    (fun E j hE => fwStep_ne_none k i j x y hE) _ D h

theorem fwPass_ne_none {n : ℕ} (k : Fin n) (D : Fin n → Fin n → Option ℚ)
    (x y : Fin n) (h : D x y ≠ none) : fwPass D k x y ≠ none := by
  unfold fwPass
  exact foldl_preserve _ (fun E => E x y ≠ none)
    (fun E i hE => fwInner_ne_none k i E x y hE) _ D h

theorem floydWarshall_ne_none {n : ℕ} (D : Fin n → Fin n → Option ℚ)
    (x y : Fin n) (h : D x y ≠ none) : floydWarshall D x y ≠ none := by
  unfold floydWarshall
  exact foldl_preserve _ (fun E => E x y ≠ none)
    (fun E k hE => fwPass_ne_none k E x y hE) _ D h

theorem seedEdge_ne_none {w : LegacyWarehouse} {e : Edge}
    {D : Fin w.nodes.length → Fin w.nodes.length → Option ℚ} {x y : Fin w.nodes.length}
    (h : D x y ≠ none) : seedEdge w D e x y ≠ none := by
  unfold seedEdge
  cases node_to_idx w e.from_node with
  | none => exact h
  | some f =>
    cases node_to_idx w e.to_node with
    | none => exact h
    | some t =>
      simp only
      split
      · dsimp only
        split
        · simp
        · split
          · simp
          · exact h
      · dsimp only
        split
        · simp
        · exact h

theorem seed_diag_ne_none (w : LegacyWarehouse) (i : Fin w.nodes.length) :
    seedMatrix w i i ≠ none := by
  unfold seedMatrix
  refine foldl_preserve (seedEdge w) (fun D => D i i ≠ none)
    (fun D e hD => seedEdge_ne_none hD) w.edges (distInit w.nodes.length) ?_
  unfold distInit
  simp

theorem seedEdge_writes {w : LegacyWarehouse} {e : Edge} {i j : Fin w.nodes.length}
    (D : Fin w.nodes.length → Fin w.nodes.length → Option ℚ)
    (hc : (node_to_idx w e.from_node = some i ∧ node_to_idx w e.to_node = some j) ∨
      (e.bidirectional = true ∧ node_to_idx w e.to_node = some i ∧
        node_to_idx w e.from_node = some j)) :
    seedEdge w D e i j ≠ none := by
  unfold seedEdge
  rcases hc with ⟨hf, ht⟩ | ⟨hb, ht, hf⟩
  · rw [hf, ht]
    simp only
    split
    · dsimp only
      split
      · simp
      · rw [if_pos ⟨rfl, rfl⟩]
        simp
    · dsimp only
      rw [if_pos ⟨rfl, rfl⟩]
      simp
  · rw [hf, ht]
    simp only
    rw [if_pos hb]
    rw [if_pos ⟨rfl, rfl⟩]
    simp

theorem seed_adj_ne_none (w : LegacyWarehouse) {i j : Fin w.nodes.length}
    (h : AdjIdx w i j) : seedMatrix w i j ≠ none := by
  obtain ⟨e, he, hc⟩ := h
  unfold seedMatrix
  suffices H : ∀ (l : List Edge) (D : Fin w.nodes.length → Fin w.nodes.length → Option ℚ),
      e ∈ l → l.foldl (seedEdge w) D i j ≠ none from
    H w.edges (distInit w.nodes.length) he
  intro l
  induction l with
  | nil => intro D hD; simp at hD
  | cons a t ih =>
    intro D hmem
    rw [List.foldl_cons]
    rcases List.mem_cons.mp hmem with rfl | hmem
    · exact foldl_preserve (seedEdge w) (fun E => E i j ≠ none)
        (fun E b hE => seedEdge_ne_none hE) t _ (seedEdge_writes D hc)
    · exact ih (seedEdge w D a) hmem

/-! ### Finite entries are exactly the reachable pairs -/

theorem sound_seedEdge (w : LegacyWarehouse) {e : Edge} (he : e ∈ w.edges)
    {D : Fin w.nodes.length → Fin w.nodes.length → Option ℚ}
    (hS : ∀ i j, D i j ≠ none → ReachIdx w i j) :
    ∀ i j, seedEdge w D e i j ≠ none → ReachIdx w i j := by
  intro i j h
  unfold seedEdge at h
  cases hf : node_to_idx w e.from_node with
  | none => rw [hf] at h; exact hS i j h
  | some f =>
    cases ht : node_to_idx w e.to_node with
    | none => rw [hf, ht] at h; exact hS i j h
    | some t =>
      rw [hf, ht] at h
      simp only at h
      by_cases hb : e.bidirectional = true
      · rw [if_pos hb] at h
        by_cases h1 : i = t ∧ j = f
        · obtain ⟨rfl, rfl⟩ := h1
          exact Relation.ReflTransGen.single ⟨e, he, Or.inr ⟨hb, ht, hf⟩⟩
        · rw [if_neg h1] at h
          by_cases h2 : i = f ∧ j = t
          · obtain ⟨rfl, rfl⟩ := h2
            exact Relation.ReflTransGen.single ⟨e, he, Or.inl ⟨hf, ht⟩⟩
          · rw [if_neg h2] at h
            exact hS i j h
      · rw [if_neg hb] at h
        by_cases h2 : i = f ∧ j = t
        · obtain ⟨rfl, rfl⟩ := h2
          exact Relation.ReflTransGen.single ⟨e, he, Or.inl ⟨hf, ht⟩⟩
        · rw [if_neg h2] at h
          exact hS i j h

theorem sound_seedMatrix (w : LegacyWarehouse) :
    ∀ i j, seedMatrix w i j ≠ none → ReachIdx w i j := by
  unfold seedMatrix
  refine foldl_preserve_mem (seedEdge w)
    (fun D => ∀ i j, D i j ≠ none → ReachIdx w i j) w.edges
    (fun D e he hS => sound_seedEdge w he hS) w.edges (fun a ha => ha)
    (distInit w.nodes.length) ?_
  intro i j h
  unfold distInit at h
  split at h
  · next hij => rw [hij]; exact Relation.ReflTransGen.refl
  · exact absurd rfl h

theorem sound_fwMatrix (w : LegacyWarehouse) :
    ∀ i j, fwMatrix w i j ≠ none → ReachIdx w i j := by
  have hstep : ∀ (E : Fin w.nodes.length → Fin w.nodes.length → Option ℚ)
      (k i j : Fin w.nodes.length), (∀ x y, E x y ≠ none → ReachIdx w x y) →
      ∀ x y, fwStep E k i j x y ≠ none → ReachIdx w x y := by
    intro E k i j hS x y h
    rw [fwStep_apply] at h
    by_cases hxy : x = i ∧ y = j
    · obtain ⟨rfl, rfl⟩ := hxy
      rw [if_pos ⟨rfl, rfl⟩] at h
      unfold simulVal at h
      split at h
      · obtain ⟨h1, h2⟩ := addD_parts h
        exact Relation.ReflTransGen.trans (hS x k h1) (hS k y h2)
      · exact hS x y h
    · rw [if_neg hxy] at h
      exact hS x y h
  unfold fwMatrix floydWarshall
  refine foldl_preserve fwPass (fun E => ∀ x y, E x y ≠ none → ReachIdx w x y)
    ?_ (List.finRange _) (seedMatrix w) (sound_seedMatrix w)
  intro E k hS
  unfold fwPass
  refine foldl_preserve _ (fun E => ∀ x y, E x y ≠ none → ReachIdx w x y)
    ?_ (List.finRange _) E hS
  intro E i hS'
  unfold fwInner
  exact foldl_preserve _ (fun E => ∀ x y, E x y ≠ none → ReachIdx w x y)
    (fun E j hS'' => hstep E k i j hS'') (List.finRange _) E hS'

theorem reach_ne_none (w : LegacyWarehouse) (hpos : PositiveEdges w)
    {i j : Fin w.nodes.length} (h : ReachIdx w i j) : fwMatrix w i j ≠ none := by
  induction h with
  | refl => exact floydWarshall_ne_none (seedMatrix w) i i (seed_diag_ne_none w i)
  | @tail b c hr hadj ih =>
    have h1 : fwMatrix w b c ≠ none :=
      floydWarshall_ne_none (seedMatrix w) b c (seed_adj_ne_none w hadj)
    exact ne_none_of_leD (fwMatrix_triangle w hpos i c b) (addD_ne_none ih h1)

/-! ### Symmetry for all-bidirectional warehouses -/

theorem distInit_symm (n : ℕ) : SymmMat (distInit n) := by
  intro i j
  unfold distInit
  by_cases h : i = j
  · subst h
    rfl
  · rw [if_neg h, if_neg (fun hh => h hh.symm)]

theorem seedEdge_symm (w : LegacyWarehouse) {e : Edge} (hb : e.bidirectional = true)
    {D : Fin w.nodes.length → Fin w.nodes.length → Option ℚ} (hs : SymmMat D) :
    SymmMat (seedEdge w D e) := by
  unfold seedEdge
  cases node_to_idx w e.from_node with
  | none => exact hs
  | some f =>
    cases node_to_idx w e.to_node with
    | none => exact hs
    | some t =>
      simp only
      rw [if_pos hb]
      intro i j
      dsimp only
      by_cases h1 : i = t ∧ j = f
      · obtain ⟨rfl, rfl⟩ := h1
        rw [if_pos ⟨rfl, rfl⟩]
        by_cases h2 : j = i ∧ i = j
        · rw [if_pos h2]
        · rw [if_neg h2, if_pos ⟨rfl, rfl⟩]
      · rw [if_neg h1]
        by_cases h2 : i = f ∧ j = t
        · obtain ⟨rfl, rfl⟩ := h2
          rw [if_pos ⟨rfl, rfl⟩, if_pos ⟨rfl, rfl⟩]
        · rw [if_neg h2, if_neg (fun hh => h2 ⟨hh.2, hh.1⟩),
            if_neg (fun hh => h1 ⟨hh.2, hh.1⟩)]
          exact hs i j

theorem seedMatrix_symm (w : LegacyWarehouse) (hbid : AllBidirectional w) :
    SymmMat (seedMatrix w) := by
  unfold seedMatrix
  exact foldl_preserve_mem (seedEdge w) SymmMat w.edges
    (fun D e he hs => seedEdge_symm w (hbid e he) hs) w.edges (fun a ha => ha)
    (distInit w.nodes.length) (distInit_symm _)

theorem fwSimulPass_symm {n : ℕ} {D : Fin n → Fin n → Option ℚ} (hs : SymmMat D)
    (k : Fin n) : SymmMat (fwSimulPass D k) := by
  intro i j
  unfold fwSimulPass simulVal
  rw [hs j k, hs k i, hs j i, addD_comm (D k j) (D i k)]

theorem fwMatrix_symm (w : LegacyWarehouse) (hpos : PositiveEdges w)
    (hbid : AllBidirectional w) : SymmMat (fwMatrix w) := by
  unfold fwMatrix floydWarshall
  have h := foldl_preserve fwPass (fun D => NonnegMat D ∧ SymmMat D)
    (fun D k hD => by
      rw [fwPass_eq_simul hD.1 k]
      exact ⟨fwSimulPass_nonneg hD.1 k, fwSimulPass_symm hD.2 k⟩)
    (List.finRange _) (seedMatrix w)
    ⟨seedMatrix_nonneg w hpos, seedMatrix_symm w hbid⟩
  exact h.2

/-! ### Relating node ids and node positions -/

theorem node_to_idx_id {w : LegacyWarehouse} {s : String} {i : Fin w.nodes.length}
    (h : node_to_idx w s = some i) : (w.nodes.get i).id = s := by
  unfold node_to_idx at h
  suffices H : ∀ (l : List (Fin w.nodes.length)) (acc : Option (Fin w.nodes.length)),
      (∀ i', acc = some i' → (w.nodes.get i').id = s) →
      l.foldl (fun acc i => if (w.nodes.get i).id = s then some i else acc) acc = some i →
      (w.nodes.get i).id = s from
    H _ none (fun i' h' => by cases h') h
  intro l
  induction l with
  | nil =>
    intro acc ha hf
    exact ha i hf
  | cons a t ih =>
    intro acc ha hf
    rw [List.foldl_cons] at hf
    refine ih _ ?_ hf
    intro i' hi'
    by_cases hc : (w.nodes.get a).id = s
    · rw [if_pos hc] at hi'
      cases hi'
      exact hc
    · rw [if_neg hc] at hi'
      exact ha i' hi'

theorem node_to_idx_isSome {w : LegacyWarehouse} {s : String}
    (hex : ∃ nd ∈ w.nodes, nd.id = s) : node_to_idx w s ≠ none := by
  obtain ⟨nd, hmem, hid⟩ := hex
  obtain ⟨iF, hget⟩ := List.mem_iff_get.mp hmem
  unfold node_to_idx
  suffices H : ∀ (l : List (Fin w.nodes.length)) (acc : Option (Fin w.nodes.length)),
      (acc ≠ none ∨ ∃ a ∈ l, (w.nodes.get a).id = s) →
      l.foldl (fun acc i => if (w.nodes.get i).id = s then some i else acc) acc ≠ none from
    H _ none (Or.inr ⟨iF, List.mem_finRange iF, by rw [hget, hid]⟩)
  intro l
  induction l with
  | nil =>
    intro acc h
    rcases h with h | ⟨a, ha, _⟩
    · exact h
    · simp at ha
  | cons a t ih =>
    intro acc h
    rw [List.foldl_cons]
    apply ih
    by_cases hc : (w.nodes.get a).id = s
    · left
      rw [if_pos hc]
      simp
    · rw [if_neg hc]
      rcases h with h | ⟨b, hb, hbs⟩
      · exact Or.inl h
      · rcases List.mem_cons.mp hb with rfl | hb
        · exact absurd hbs hc
        · exact Or.inr ⟨b, hb, hbs⟩

theorem node_to_idx_get (w : LegacyWarehouse) (huniq : UniqueNodeIds w)
    (i : Fin w.nodes.length) : node_to_idx w ((w.nodes.get i).id) = some i := by
  have h1 : node_to_idx w ((w.nodes.get i).id) ≠ none :=
    node_to_idx_isSome ⟨w.nodes.get i, by simpa using List.get_mem w.nodes i.1 i.2, rfl⟩
  cases hv : node_to_idx w ((w.nodes.get i).id) with
  | none => exact absurd hv h1
  | some i' =>
    have h2 : (w.nodes.get i').id = (w.nodes.get i).id := node_to_idx_id hv
    have h3 : i' = i := by
      have hmap : ∀ (kk : Fin w.nodes.length),
          (w.nodes.map Node.id).get ⟨kk.1, by simpa using kk.2⟩ = (w.nodes.get kk).id := by
        intro kk
        simp [List.get_map]
      have := (List.Nodup.get_inj_iff huniq
        (i := ⟨i'.1, by simpa using i'.2⟩) (j := ⟨i.1, by simpa using i.2⟩)).mp
        (by rw [hmap, hmap]; exact h2)
      have hval : i'.1 = i.1 := by simpa [Fin.ext_iff] using this
      exact Fin.ext hval
    rw [h3]

/-! ### Membership in the navigation-graph adjacency -/

theorem mem_foldl_append {α β : Type} (f g : β → List α) :
    ∀ (l : List β) (acc : List α) (v : α),
      (v ∈ l.foldl (fun acc e => acc ++ f e ++ g e) acc ↔
        v ∈ acc ∨ ∃ e ∈ l, v ∈ f e ∨ v ∈ g e) := by
  intro l
  induction l with
  | nil => simp
  | cons a t ih =>
    intro acc v
    rw [List.foldl_cons, ih]
    simp only [List.mem_append, List.mem_cons]
    constructor
    · rintro (((h | h) | h) | ⟨e, he, hfe⟩)
      · exact Or.inl h
      · exact Or.inr ⟨a, Or.inl rfl, Or.inl h⟩
      · exact Or.inr ⟨a, Or.inl rfl, Or.inr h⟩
      · exact Or.inr ⟨e, Or.inr he, hfe⟩
    · rintro (h | ⟨e, (rfl | he), hfe⟩)
      · exact Or.inl (Or.inl (Or.inl h))
      · rcases hfe with h | h
        · exact Or.inl (Or.inl (Or.inr h))
        · exact Or.inl (Or.inr h)
      · exact Or.inr ⟨e, he, hfe⟩

theorem mem_navigation_graph (w : LegacyWarehouse) (u v : String) :
    v ∈ navigation_graph w u ↔
      ∃ e ∈ w.edges, (e.from_node = u ∧ e.to_node = v) ∨
        (e.bidirectional = true ∧ e.to_node = u ∧ e.from_node = v) := by
  unfold navigation_graph
  rw [mem_foldl_append (fun e => if e.from_node = u then [e.to_node] else [])
    (fun e => if e.bidirectional && (decide (e.to_node = u)) then [e.from_node] else [])
    w.edges [] v]
  simp only [List.not_mem_nil, false_or]
  constructor
  · rintro ⟨e, he, hc | hc⟩
    · by_cases hf : e.from_node = u
      · rw [if_pos hf] at hc
        exact ⟨e, he, Or.inl ⟨hf, (List.mem_singleton.mp hc).symm⟩⟩
      · rw [if_neg hf] at hc
        simp at hc
    · by_cases hbt : (e.bidirectional && decide (e.to_node = u)) = true
      · rw [if_pos hbt] at hc
        obtain ⟨hb, ht⟩ := Bool.and_eq_true_iff.mp hbt
        exact ⟨e, he, Or.inr ⟨hb, of_decide_eq_true ht, (List.mem_singleton.mp hc).symm⟩⟩
      · rw [if_neg hbt] at hc
        simp at hc
  · rintro ⟨e, he, ⟨hf, ht⟩ | ⟨hb, ht, hf⟩⟩
    · refine ⟨e, he, Or.inl ?_⟩
      rw [if_pos hf]
      simp [ht]
    · refine ⟨e, he, Or.inr ?_⟩
      rw [if_pos (by rw [hb, ht]; simp)]
      simp [hf]

/-! ### Reachability on ids agrees with reachability on positions -/

theorem reachIdx_to_reachG (w : LegacyWarehouse) {i j : Fin w.nodes.length}
    (h : ReachIdx w i j) :
    ReachableG w ((w.nodes.get i).id) ((w.nodes.get j).id) := by
  induction h with
  | refl => exact Relation.ReflTransGen.refl
  | @tail b c hr hadj ih =>
    refine Relation.ReflTransGen.tail ih ?_
    rcases hadj with ⟨e, he, ⟨hf, ht⟩ | ⟨hb, ht, hf⟩⟩
    · exact (mem_navigation_graph w _ _).mpr
        ⟨e, he, Or.inl ⟨(node_to_idx_id hf).symm, (node_to_idx_id ht).symm⟩⟩
    · exact (mem_navigation_graph w _ _).mpr
        ⟨e, he, Or.inr ⟨hb, (node_to_idx_id ht).symm, (node_to_idx_id hf).symm⟩⟩

theorem reachG_to_reachIdx (w : LegacyWarehouse) (hend : EndpointsExist w)
    (huniq : UniqueNodeIds w) (i : Fin w.nodes.length) {v : String}
    (h : ReachableG w ((w.nodes.get i).id) v) :
    ∀ j : Fin w.nodes.length, (w.nodes.get j).id = v → ReachIdx w i j := by
  induction h with
  | refl =>
    intro j hj
    have : j = i := by
      have hmap : ∀ (kk : Fin w.nodes.length),
          (w.nodes.map Node.id).get ⟨kk.1, by simpa using kk.2⟩ = (w.nodes.get kk).id := by
        intro kk
        simp [List.get_map]
      have := (List.Nodup.get_inj_iff huniq
        (i := ⟨j.1, by simpa using j.2⟩) (j := ⟨i.1, by simpa using i.2⟩)).mp
        (by rw [hmap, hmap]; exact hj)
      have hval : j.1 = i.1 := by simpa [Fin.ext_iff] using this
      exact Fin.ext hval
    rw [this]
    exact Relation.ReflTransGen.refl
  | @tail b c hr hstep ih =>
    intro j hj
    rcases (mem_navigation_graph w b c).mp hstep with ⟨e, he, ⟨hf, ht⟩ | ⟨hbb, ht, hf⟩⟩
    · obtain ⟨nd, hnd, hid⟩ := (hend e he).1
      obtain ⟨ib, hib⟩ := List.mem_iff_get.mp hnd
      have hib2 : (w.nodes.get ib).id = b := by rw [hib, hid, hf]
      refine Relation.ReflTransGen.tail (ih ib hib2) ?_
      refine ⟨e, he, Or.inl ⟨?_, ?_⟩⟩
      · rw [show e.from_node = (w.nodes.get ib).id from by rw [hf, hib2]]
        exact node_to_idx_get w huniq ib
      · rw [show e.to_node = (w.nodes.get j).id from by rw [ht, hj]]
        exact node_to_idx_get w huniq j
    · obtain ⟨nd, hnd, hid⟩ := (hend e he).2
      obtain ⟨ib, hib⟩ := List.mem_iff_get.mp hnd
      have hib2 : (w.nodes.get ib).id = b := by rw [hib, hid, ht]
      refine Relation.ReflTransGen.tail (ih ib hib2) ?_
      refine ⟨e, he, Or.inr ⟨hbb, ?_, ?_⟩⟩
      · rw [show e.to_node = (w.nodes.get ib).id from by rw [ht, hib2]]
        exact node_to_idx_get w huniq ib
      · rw [show e.from_node = (w.nodes.get j).id from by rw [hf, hj]]
        exact node_to_idx_get w huniq j

/-! ### The external matrix entry is −1 exactly on infinite internal entries -/

theorem round2_nonneg {q : ℚ} (h : 0 ≤ q) : 0 ≤ round2 q := by
  unfold round2
  have h1 : (0 : ℤ) ≤ round (q * 100) := by
    rw [round_eq]
    refine Int.le_floor.mpr ?_
    push_cast
    linarith
  have h2 : (0 : ℚ) ≤ ((round (q * 100) : ℤ) : ℚ) := by exact_mod_cast h1
  linarith

theorem distance_matrix_neg_one_iff (w : LegacyWarehouse) (hpos : PositiveEdges w)
    (i j : Fin w.nodes.length) :
    distance_matrix w i j = -1 ↔ fwMatrix w i j = none := by
  unfold distance_matrix
  cases hv : fwMatrix w i j with
  | none => simp
  | some q =>
    have hq : 0 ≤ q := by
      have := fwMatrix_nonneg w hpos i j
      rw [hv] at this
      exact this
    simp only
    constructor
    · intro h
      have := round2_nonneg hq
      rw [h] at this
      norm_num at this
    · intro h
      cases h

/-! ### Claim theorems: the distance-matrix pipeline -/

theorem walkDist_nonneg {w : LegacyWarehouse} (hpos : ∀ e ∈ w.edges, 0 ≤ e.distance)
    {u v : String} {d : ℚ} (h : WalkDist w u v d) : 0 ≤ d := by
  induction h with
  | refl => norm_num
  | @cons u' v' t' d₁ d₂ hstep _ ih =>
    obtain ⟨e, he, hc⟩ := hstep
    have hd1 : e.distance = d₁ := by
      rcases hc with ⟨_, _, hd⟩ | ⟨_, _, _, hd⟩ <;> exact hd
    have := hpos e he
    rw [hd1] at this
    linarith

theorem wParallel_walk_lb : ∀ (u v : String) (d : ℚ), WalkDist wParallel u v d →
    u = "a" → v = "b" → 3 ≤ d := by
  intro u v d h
  induction h with
  | refl u =>
    intro h1 h2
    rw [h1] at h2
    exact absurd h2 (by decide)
  | @cons u' v' t' d₁ d₂ hstep hrest ih =>
    intro h1 h2
    obtain ⟨e, he, hc⟩ := hstep
    have he' : e = eDup3 ∨ e = eDup5 := by simpa [wParallel] using he
    have hd : e.distance = d₁ := by
      rcases hc with ⟨_, _, hd⟩ | ⟨_, _, _, hd⟩ <;> exact hd
    have hd1 : 3 ≤ d₁ := by
      rcases he' with rfl | rfl
      · rw [← hd]
        norm_num [eDup3]
      · rw [← hd]
        norm_num [eDup5]
    have hd2 : 0 ≤ d₂ := walkDist_nonneg (w := wParallel)
      (by unfold wParallel eDup3 eDup5; with_unfolding_all decide) hrest
    linarith

/-- C1: for the warehouse `wParallel`, whose two parallel edges `a → b` have
distances 3 (listed first) and 5 (listed second), the external distance
matrix of `_compute_distance_matrix` reports 5.0 for the pair `(a, b)`, while
the minimum total edge distance over all paths from `a` to `b` is 3: the
last-wins edge seeding (a plain assignment at converter.py line 167, not a
minimum) contradicts the specified and documented shortest-path semantics. -/
theorem C1_parallel_edges_not_min :
    distance_matrix wParallel ⟨0, by decide⟩ ⟨1, by decide⟩ = 5 ∧
      IsMinPathDist wParallel "a" "b" 3 := by
  refine ⟨by with_unfolding_all decide, ?_, ?_⟩
  · have h : WalkDist wParallel "a" "b" (3 + 0) :=
      WalkDist.cons ⟨eDup3, by simp [wParallel], Or.inl ⟨rfl, rfl, rfl⟩⟩
        (WalkDist.refl "b")
    simpa using h
  · intro d' hw
    exact wParallel_walk_lb "a" "b" d' hw rfl rfl

/-- C2: an ordered pair of distinct nodes is assigned the sentinel −1 by
`_compute_distance_matrix` exactly when no path joins them in the adjacency
built by `_build_navigation_graph` (bidirectional edges traversable both
ways), for warehouses with positive edge distances, endpoints referencing
existing node ids, and unique node ids. -/
theorem C2_sentinel_iff_unreachable (w : LegacyWarehouse) (hpos : PositiveEdges w)
    (hend : EndpointsExist w) (huniq : UniqueNodeIds w)
    (i j : Fin w.nodes.length) (hij : i ≠ j) :
    distance_matrix w i j = -1 ↔
      ¬ ReachableG w ((w.nodes.get i).id) ((w.nodes.get j).id) := by
  rw [distance_matrix_neg_one_iff w hpos i j]
  constructor
  · intro h hreach
    exact reach_ne_none w hpos (reachG_to_reachIdx w hend huniq i hreach j rfl) h
  · intro h
    by_contra hne
    exact h (reachIdx_to_reachG w (sound_fwMatrix w i j hne))

theorem C2_sentinel_iff_unreachable_witness :
    PositiveEdges wThree ∧ EndpointsExist wThree ∧ UniqueNodeIds wThree ∧
      (⟨0, by decide⟩ : Fin wThree.nodes.length) ≠ ⟨2, by decide⟩ ∧
      (distance_matrix wThree ⟨0, by decide⟩ ⟨2, by decide⟩ = -1 ↔
        ¬ ReachableG wThree ((wThree.nodes.get ⟨0, by decide⟩).id)
          ((wThree.nodes.get ⟨2, by decide⟩).id)) :=
  ⟨by unfold PositiveEdges; with_unfolding_all decide,
    by unfold EndpointsExist; with_unfolding_all decide,
    by unfold UniqueNodeIds; with_unfolding_all decide,
    by decide,
    C2_sentinel_iff_unreachable wThree
      (by unfold PositiveEdges; with_unfolding_all decide)
      (by unfold EndpointsExist; with_unfolding_all decide)
      (by unfold UniqueNodeIds; with_unfolding_all decide)
      ⟨0, by decide⟩ ⟨2, by decide⟩ (by decide)⟩

/-- C5 (counterexample): in the external table of `_compute_distance_matrix`
for the edgeless two-node warehouse `wIsolated`, the triangle inequality
fails on the triple `(a, a, b)`: `0 ≤ (−1) + (−1)` is false, because
unreachable pairs carry the sentinel −1 rather than +∞. -/
theorem C5_counterexample :
    ¬ (distance_matrix wIsolated ⟨0, by decide⟩ ⟨0, by decide⟩ ≤
        distance_matrix wIsolated ⟨0, by decide⟩ ⟨1, by decide⟩ +
          distance_matrix wIsolated ⟨1, by decide⟩ ⟨0, by decide⟩) := by
  with_unfolding_all decide

/-- C5 (amended): after full relaxation the *internal* Floyd–Warshall matrix
(`+∞` still encoded as `none`, before sentinel conversion and rounding)
satisfies the triangle inequality for every triple of nodes. -/
theorem C5_internal_triangle (w : LegacyWarehouse) (hpos : PositiveEdges w)
    (i j k : Fin w.nodes.length) :
    leD (fwMatrix w i j) (addD (fwMatrix w i k) (fwMatrix w k j)) = true :=
  fwMatrix_triangle w hpos i j k

theorem C5_internal_triangle_witness :
    PositiveEdges wThree ∧
      leD (fwMatrix wThree ⟨0, by decide⟩ ⟨1, by decide⟩)
        (addD (fwMatrix wThree ⟨0, by decide⟩ ⟨2, by decide⟩)
          (fwMatrix wThree ⟨2, by decide⟩ ⟨1, by decide⟩)) = true :=
  ⟨by unfold PositiveEdges; with_unfolding_all decide,
    C5_internal_triangle wThree
      (by unfold PositiveEdges; with_unfolding_all decide)
      ⟨0, by decide⟩ ⟨1, by decide⟩ ⟨2, by decide⟩⟩

/-- C6: for warehouses in which every edge is bidirectional (with positive
distances), the external distance matrix is symmetric. -/
theorem C6_bidirectional_symmetric (w : LegacyWarehouse) (hpos : PositiveEdges w)
    (hbid : AllBidirectional w) (hend : EndpointsExist w)
    (i j : Fin w.nodes.length) :
    distance_matrix w i j = distance_matrix w j i := by
  unfold distance_matrix
  rw [fwMatrix_symm w hpos hbid i j]

theorem C6_bidirectional_symmetric_witness :
    PositiveEdges wThree ∧ AllBidirectional wThree ∧ EndpointsExist wThree ∧
      distance_matrix wThree ⟨0, by decide⟩ ⟨1, by decide⟩ =
        distance_matrix wThree ⟨1, by decide⟩ ⟨0, by decide⟩ :=
  ⟨by unfold PositiveEdges; with_unfolding_all decide,
    by unfold AllBidirectional; with_unfolding_all decide,
    by unfold EndpointsExist; with_unfolding_all decide,
    C6_bidirectional_symmetric wThree
      (by unfold PositiveEdges; with_unfolding_all decide)
      (by unfold AllBidirectional; with_unfolding_all decide)
      (by unfold EndpointsExist; with_unfolding_all decide)
      ⟨0, by decide⟩ ⟨1, by decide⟩⟩

/-! ### Claim theorems: feasibility scoring -/

theorem grade_band_A {s : ℚ} :
    ((if (9 : ℚ) ≤ s then "A" else if (7 : ℚ) ≤ s then "B" else if (5 : ℚ) ≤ s then "C"
      else if (3 : ℚ) ≤ s then "D" else "F") = "A") ↔ 9 ≤ s := by
  split_ifs with h9 h7 h5 h3
  · simp [h9]
  · exact ⟨fun h => absurd h (by decide), fun h => absurd h h9⟩
  · exact ⟨fun h => absurd h (by decide), fun h => absurd h h9⟩
  · exact ⟨fun h => absurd h (by decide), fun h => absurd h h9⟩
  · exact ⟨fun h => absurd h (by decide), fun h => absurd h h9⟩

theorem grade_band_B {s : ℚ} :
    ((if (9 : ℚ) ≤ s then "A" else if (7 : ℚ) ≤ s then "B" else if (5 : ℚ) ≤ s then "C"
      else if (3 : ℚ) ≤ s then "D" else "F") = "B") ↔ 7 ≤ s ∧ s < 9 := by
  split_ifs with h9 h7 h5 h3
  · constructor
    · intro h
      exact absurd h (by decide)
    · rintro ⟨-, h⟩
      linarith
  · push_neg at h9
    exact ⟨fun _ => ⟨h7, h9⟩, fun _ => rfl⟩
  · exact ⟨fun h => absurd h (by decide), fun hh => absurd hh.1 h7⟩
  · exact ⟨fun h => absurd h (by decide), fun hh => absurd hh.1 h7⟩
  · exact ⟨fun h => absurd h (by decide), fun hh => absurd hh.1 h7⟩

theorem grade_band_C {s : ℚ} :
    ((if (9 : ℚ) ≤ s then "A" else if (7 : ℚ) ≤ s then "B" else if (5 : ℚ) ≤ s then "C"
      else if (3 : ℚ) ≤ s then "D" else "F") = "C") ↔ 5 ≤ s ∧ s < 7 := by
  split_ifs with h9 h7 h5 h3
  · constructor
    · intro h
      exact absurd h (by decide)
    · rintro ⟨-, h⟩
      linarith
  · constructor
    · intro h
      exact absurd h (by decide)
    · rintro ⟨-, h⟩
      exact absurd h7 (not_le.mpr h)
  · push_neg at h7
    exact ⟨fun _ => ⟨h5, h7⟩, fun _ => rfl⟩
  · exact ⟨fun h => absurd h (by decide), fun hh => absurd hh.1 h5⟩
  · exact ⟨fun h => absurd h (by decide), fun hh => absurd hh.1 h5⟩

theorem grade_band_D {s : ℚ} :
    ((if (9 : ℚ) ≤ s then "A" else if (7 : ℚ) ≤ s then "B" else if (5 : ℚ) ≤ s then "C"
      else if (3 : ℚ) ≤ s then "D" else "F") = "D") ↔ 3 ≤ s ∧ s < 5 := by
  split_ifs with h9 h7 h5 h3
  · constructor
    · intro h
      exact absurd h (by decide)
    · rintro ⟨-, h⟩
      linarith
  · constructor
    · intro h
      exact absurd h (by decide)
    · rintro ⟨-, h⟩
      linarith
  · constructor
    · intro h
      exact absurd h (by decide)
    · rintro ⟨-, h⟩
      exact absurd h5 (not_le.mpr h)
  · push_neg at h5
    exact ⟨fun _ => ⟨h3, h5⟩, fun _ => rfl⟩
  · exact ⟨fun h => absurd h (by decide), fun hh => absurd hh.1 h3⟩

theorem grade_band_F {s : ℚ} :
    ((if (9 : ℚ) ≤ s then "A" else if (7 : ℚ) ≤ s then "B" else if (5 : ℚ) ≤ s then "C"
      else if (3 : ℚ) ≤ s then "D" else "F") = "F") ↔ s < 3 := by
  split_ifs with h9 h7 h5 h3
  · exact ⟨fun h => absurd h (by decide), fun h => absurd h (by linarith)⟩
  · exact ⟨fun h => absurd h (by decide), fun h => absurd h (by linarith)⟩
  · exact ⟨fun h => absurd h (by decide), fun h => absurd h (by linarith)⟩
  · exact ⟨fun h => absurd h (by decide), fun h => absurd h (by linarith)⟩
  · push_neg at h3
    exact ⟨fun _ => h3, fun _ => rfl⟩

/-- C3: the assessment of `_calculate_feasibility_score` carries score
`round(sum of the four factor sub-scores, 1)`, letter grade determined by the
bands A ≥ 9.0, 7.0 ≤ B < 9.0, 5.0 ≤ C < 7.0, 3.0 ≤ D < 5.0, F below 3.0,
and `is_feasible` true exactly when the score is at least 5.0. -/
theorem C3_score_grade_feasible (w : LegacyWarehouse) :
    ((calculate_feasibility_score w).factors.map FeasibilityFactor.score =
      [aisle_width_score w, regularity_score w, space_score w, accessibility_score w]) ∧
    ((calculate_feasibility_score w).score =
      round1 (((calculate_feasibility_score w).factors.map FeasibilityFactor.score).sum)) ∧
    ((calculate_feasibility_score w).grade = "A" ↔
      9 ≤ (calculate_feasibility_score w).score) ∧
    ((calculate_feasibility_score w).grade = "B" ↔
      7 ≤ (calculate_feasibility_score w).score ∧
        (calculate_feasibility_score w).score < 9) ∧
    ((calculate_feasibility_score w).grade = "C" ↔
      5 ≤ (calculate_feasibility_score w).score ∧
        (calculate_feasibility_score w).score < 7) ∧
    ((calculate_feasibility_score w).grade = "D" ↔
      3 ≤ (calculate_feasibility_score w).score ∧
        (calculate_feasibility_score w).score < 5) ∧
    ((calculate_feasibility_score w).grade = "F" ↔
      (calculate_feasibility_score w).score < 3) ∧
    ((calculate_feasibility_score w).is_feasible = true ↔
      5 ≤ (calculate_feasibility_score w).score) := by
  have hmap : (calculate_feasibility_score w).factors.map FeasibilityFactor.score =
      [aisle_width_score w, regularity_score w, space_score w, accessibility_score w] :=
    rfl
  have hscore : (calculate_feasibility_score w).score =
      round1 (aisle_width_score w + regularity_score w + space_score w +
        accessibility_score w) := rfl
  have hgrade : (calculate_feasibility_score w).grade =
      (if (9 : ℚ) ≤ (calculate_feasibility_score w).score then "A"
        else if (7 : ℚ) ≤ (calculate_feasibility_score w).score then "B"
        else if (5 : ℚ) ≤ (calculate_feasibility_score w).score then "C"
        else if (3 : ℚ) ≤ (calculate_feasibility_score w).score then "D" else "F") := by
    unfold calculate_feasibility_score
    dsimp only
    split_ifs <;> rfl
  have hfeas : (calculate_feasibility_score w).is_feasible =
      decide ((5 : ℚ) ≤ (calculate_feasibility_score w).score) := rfl
  refine ⟨hmap, ?_, ?_, ?_, ?_, ?_, ?_, ?_⟩
  · rw [hmap, show ([aisle_width_score w, regularity_score w, space_score w,
      accessibility_score w] : List ℚ).sum =
        aisle_width_score w + regularity_score w + space_score w +
          accessibility_score w from by
        simp only [List.sum_cons, List.sum_nil]
        ring]
    exact hscore
  · rw [hgrade]
    exact grade_band_A
  · rw [hgrade]
    exact grade_band_B
  · rw [hgrade]
    exact grade_band_C
  · rw [hgrade]
    exact grade_band_D
  · rw [hgrade]
    exact grade_band_F
  · rw [hfeas]
    simp

/-- C4: on the Layout A warehouse (20m×60m, 5 aisles of width 3.0m and length
50m, pickup zone at (0,0,5,5), drop zone at (15,55,5,5), five uniformly
spaced equal-width aisle zones), `_calculate_feasibility_score` yields
aisle-width 3.0, regularity 2.5, space-utilization 1.0 at utilization 0.625,
accessibility 1.5, total 8.0, grade B. -/
theorem C4_layout_a_example :
    aisle_width_score create_layout_a_warehouse = 3 ∧
      regularity_score create_layout_a_warehouse = 2.5 ∧
      space_score create_layout_a_warehouse = 1 ∧
      utilization create_layout_a_warehouse = 0.625 ∧
      accessibility_score create_layout_a_warehouse = 1.5 ∧
      (calculate_feasibility_score create_layout_a_warehouse).score = 8 ∧
      (calculate_feasibility_score create_layout_a_warehouse).grade = "B" := by
  with_unfolding_all decide

/-- C10: with exactly two aisle zones the spacing list is a single value, so
the spacing-consistency test always passes: the regularity sub-score is 2.5
when the two aisle widths are equal and 1.5 otherwise, and the 0.5 outcome is
unreachable. -/
theorem C10_two_aisles_regularity (w : LegacyWarehouse) (z₁ z₂ : Zone)
    (h : aisle_zones w = [z₁, z₂]) :
    regularity_score w = (if z₁.width = z₂.width then 2.5 else 1.5) ∧
      regularity_score w ≠ 0.5 := by
  have hsorted : ∃ p q : ℚ,
      List.insertionSort (· ≤ ·) (List.map Zone.x [z₁, z₂]) = [p, q] := by
    by_cases hx : z₁.x ≤ z₂.x
    · exact ⟨z₁.x, z₂.x, by simp [List.insertionSort, List.orderedInsert, hx]⟩
    · exact ⟨z₂.x, z₁.x, by simp [List.insertionSort, List.orderedInsert, hx]⟩
  obtain ⟨p, q, hpq⟩ := hsorted
  have hsc : spacing_consistent [z₁, z₂] = true := by
    unfold spacing_consistent
    rw [hpq]
    show ((consecutiveDiffs [p, q]).length == 0 ||
      decide (pyMax (consecutiveDiffs [p, q]) - pyMin (consecutiveDiffs [p, q]) < 1)) = true
    have hdiffs : consecutiveDiffs [p, q] = [q - p] := rfl
    rw [hdiffs]
    have hmax : pyMax [q - p] = q - p := rfl
    have hmin : pyMin [q - p] = q - p := rfl
    rw [hmax, hmin, sub_self]
    norm_num
  have hwc : width_consistent [z₁, z₂] = decide (z₁.width = z₂.width) := by
    unfold width_consistent
    by_cases hw : z₁.width = z₂.width
    · rw [show List.map Zone.width [z₁, z₂] = [z₁.width, z₂.width] from rfl]
      rw [List.dedup_cons_of_mem (List.mem_singleton.mpr hw)]
      rw [List.dedup_cons_of_not_mem (List.not_mem_nil _), List.dedup_nil]
      simp [hw]
    · rw [show List.map Zone.width [z₁, z₂] = [z₁.width, z₂.width] from rfl]
      rw [List.dedup_cons_of_not_mem (by simpa using hw)]
      rw [List.dedup_cons_of_not_mem (List.not_mem_nil _), List.dedup_nil]
      simp [hw]
  have hmain : regularity_score w = if z₁.width = z₂.width then 2.5 else 1.5 := by
    unfold regularity_score
    rw [h]
    rw [if_pos (by norm_num : 2 ≤ ([z₁, z₂] : List Zone).length)]
    rw [hsc, hwc]
    by_cases hw : z₁.width = z₂.width
    · simp [hw]
    · simp [hw]
  refine ⟨hmain, ?_⟩
  rw [hmain]
  by_cases hw : z₁.width = z₂.width
  · rw [if_pos hw]
    norm_num
  · rw [if_neg hw]
    norm_num

theorem C10_two_aisles_regularity_witness :
    aisle_zones wTwoAisles =
      [⟨"a1", "Aisle 1", 2, 0, 3, 20, ZoneType.aisle⟩,
        ⟨"a2", "Aisle 2", 9, 0, 4, 20, ZoneType.aisle⟩] ∧
      (regularity_score wTwoAisles =
        (if (⟨"a1", "Aisle 1", 2, 0, 3, 20, ZoneType.aisle⟩ : Zone).width =
            (⟨"a2", "Aisle 2", 9, 0, 4, 20, ZoneType.aisle⟩ : Zone).width
          then 2.5 else 1.5) ∧
        regularity_score wTwoAisles ≠ 0.5) :=
  ⟨by with_unfolding_all decide,
    C10_two_aisles_regularity wTwoAisles
      ⟨"a1", "Aisle 1", 2, 0, 3, 20, ZoneType.aisle⟩
      ⟨"a2", "Aisle 2", 9, 0, 4, 20, ZoneType.aisle⟩
      (by with_unfolding_all decide)⟩

/-! ### Claim theorems: construction-time validation -/

theorem validateAll_ok {α : Type} (f : α → Except String Unit) :
    ∀ (l : List α), validateAll f l = .ok () → ∀ a ∈ l, f a = .ok () := by
  intro l
  induction l with
  | nil =>
    intro _ a ha
    simp at ha
  | cons b t ih =>
    intro h a ha
    unfold validateAll at h
    cases hfb : f b with
    | error m =>
      rw [hfb] at h
      exact Except.noConfusion h
    | ok u =>
      rw [hfb] at h
      rcases List.mem_cons.mp ha with rfl | ha
      · cases u
        exact hfb
      · exact ih h a ha

theorem validateZone_ok {z : Zone} (h : validateZone z = .ok ()) :
    0 ≤ z.x ∧ 0 ≤ z.y := by
  unfold validateZone at h
  split_ifs at h with h1 h2 h3 h4
  · exact ⟨not_lt.mp h1, not_lt.mp h2⟩

theorem validateNode_ok {nd : Node} (h : validateNode nd = .ok ()) :
    0 ≤ nd.x ∧ 0 ≤ nd.y := by
  unfold validateNode at h
  split_ifs at h with h1 h2
  · exact ⟨not_lt.mp h1, not_lt.mp h2⟩

theorem validate_ok_props {w w' : LegacyWarehouse}
    (h : validateLegacyWarehouse w = .ok w') :
    0 < w.width ∧ 0 < w.length ∧ 0 < w.aisles ∧ 0 < w.aisle_width ∧
      0 < w.aisle_length ∧ (w.zones.map Zone.id).Nodup ∧
      (w.nodes.map Node.id).Nodup ∧ (w.edges.map Edge.id).Nodup ∧
      (∀ z ∈ w.zones, 0 ≤ z.x ∧ 0 ≤ z.y) ∧
      (∀ nd ∈ w.nodes, 0 ≤ nd.x ∧ 0 ≤ nd.y) := by
  unfold validateLegacyWarehouse at h
  by_cases h1 : w.width ≤ 0
  · rw [if_pos h1] at h
    exact Except.noConfusion h
  rw [if_neg h1] at h
  by_cases h2 : w.length ≤ 0
  · rw [if_pos h2] at h
    exact Except.noConfusion h
  rw [if_neg h2] at h
  by_cases h3 : w.aisles ≤ 0
  · rw [if_pos h3] at h
    exact Except.noConfusion h
  rw [if_neg h3] at h
  by_cases h4 : w.aisle_width ≤ 0
  · rw [if_pos h4] at h
    exact Except.noConfusion h
  rw [if_neg h4] at h
  by_cases h5 : w.aisle_length ≤ 0
  · rw [if_pos h5] at h
    exact Except.noConfusion h
  rw [if_neg h5] at h
  cases hz : validateAll validateZone w.zones with
  | error m =>
    simp only [hz] at h
    exact Except.noConfusion h
  | ok u =>
    cases u
    simp only [hz] at h
    by_cases h6 : ¬ (w.zones.map Zone.id).Nodup
    · rw [if_pos h6] at h
      exact Except.noConfusion h
    rw [if_neg h6] at h
    cases hn : validateAll validateNode w.nodes with
    | error m =>
      simp only [hn] at h
      exact Except.noConfusion h
    | ok u =>
      cases u
      simp only [hn] at h
      by_cases h7 : ¬ (w.nodes.map Node.id).Nodup
      · rw [if_pos h7] at h
        exact Except.noConfusion h
      rw [if_neg h7] at h
      cases he : validateAll validateEdge w.edges with
      | error m =>
        simp only [he] at h
        exact Except.noConfusion h
      | ok u =>
        cases u
        simp only [he] at h
        by_cases h8 : ¬ (w.edges.map Edge.id).Nodup
        · rw [if_pos h8] at h
          exact Except.noConfusion h
        rw [if_neg h8] at h
        exact ⟨not_le.mp h1, not_le.mp h2, not_le.mp h3, not_le.mp h4, not_le.mp h5,
          not_not.mp h6, not_not.mp h7, not_not.mp h8,
          fun z hzz => validateZone_ok (validateAll_ok validateZone w.zones hz z hzz),
          fun nd hnn => validateNode_ok (validateAll_ok validateNode w.nodes hn nd hnn)⟩

/-- C7 (amended): constructing a `LegacyWarehouse` fails with a descriptive
error on duplicate zone/node/edge ids, non-positive warehouse dimensions or
aisle counts, and negative zone/node coordinates; edge endpoints referencing
non-existent node ids are, however, not checked (see the counterexample). -/
theorem C7_validation_rejects_malformed (w : LegacyWarehouse)
    (hmal : ¬ (w.zones.map Zone.id).Nodup ∨ ¬ (w.nodes.map Node.id).Nodup ∨
      ¬ (w.edges.map Edge.id).Nodup ∨ w.width ≤ 0 ∨ w.length ≤ 0 ∨ w.aisles ≤ 0 ∨
      w.aisle_width ≤ 0 ∨ w.aisle_length ≤ 0 ∨ (∃ z ∈ w.zones, z.x < 0 ∨ z.y < 0) ∨
      (∃ nd ∈ w.nodes, nd.x < 0 ∨ nd.y < 0)) :
    ∃ msg, validateLegacyWarehouse w = .error msg := by
  cases hv : validateLegacyWarehouse w with
  | error m => exact ⟨m, rfl⟩
  | ok w' =>
    exfalso
    obtain ⟨p1, p2, p3, p4, p5, p6, p7, p8, p9, p10⟩ := validate_ok_props hv
    rcases hmal with h | h | h | h | h | h | h | h | ⟨z, hz, hzc⟩ | ⟨nd, hn, hnc⟩
    · exact h p6
    · exact h p7
    · exact h p8
    · linarith
    · linarith
    · omega
    · linarith
    · linarith
    · rcases hzc with hc | hc
      · linarith [(p9 z hz).1]
      · linarith [(p9 z hz).2]
    · rcases hnc with hc | hc
      · linarith [(p10 nd hn).1]
      · linarith [(p10 nd hn).2]

theorem C7_validation_rejects_malformed_witness :
    (¬ (wDupZone.zones.map Zone.id).Nodup ∨ ¬ (wDupZone.nodes.map Node.id).Nodup ∨
      ¬ (wDupZone.edges.map Edge.id).Nodup ∨ wDupZone.width ≤ 0 ∨
      wDupZone.length ≤ 0 ∨ wDupZone.aisles ≤ 0 ∨ wDupZone.aisle_width ≤ 0 ∨
      wDupZone.aisle_length ≤ 0 ∨ (∃ z ∈ wDupZone.zones, z.x < 0 ∨ z.y < 0) ∨
      (∃ nd ∈ wDupZone.nodes, nd.x < 0 ∨ nd.y < 0)) ∧
      ∃ msg, validateLegacyWarehouse wDupZone = .error msg :=
  ⟨Or.inl (by with_unfolding_all decide),
    C7_validation_rejects_malformed wDupZone (Or.inl (by with_unfolding_all decide))⟩

/-- C7 (counterexample): `wDangling` has an edge whose `to_node` (`"ghost"`)
matches no node id, yet construction-time validation accepts it — pydantic
`LegacyWarehouse` has no validator relating edge endpoints to node ids. -/
theorem C7_counterexample_dangling_edge_accepted :
    validateLegacyWarehouse wDangling = .ok wDangling ∧
      ∃ e ∈ wDangling.edges, ∀ nd ∈ wDangling.nodes, nd.id ≠ e.to_node := by
  constructor
  · with_unfolding_all rfl
  · with_unfolding_all decide

/-! ### Claim theorems: objective weights -/

/-- C9: `ObjectiveFunction.__init__` fails exactly when the four weights sum
to something farther than 0.001 from 1.0, and otherwise stores the
evaluation state and proceeds. -/
theorem C9_weight_sum_validation (ws : OptimizationWeights) (dm : List (List ℚ))
    (ids : List String) (cpm cps cpb cpc : ℚ) :
    ((0.001 : ℚ) < |ws.travel + ws.time + ws.energy + ws.conflict - 1| →
      mkObjectiveFunction ws dm ids cpm cps cpb cpc =
        .error "Weights must sum to 1.0") ∧
    (|ws.travel + ws.time + ws.energy + ws.conflict - 1| ≤ (0.001 : ℚ) →
      mkObjectiveFunction ws dm ids cpm cps cpb cpc =
        .ok ⟨ws, dm, ids, cpm, cps, cpb, cpc⟩) := by
  constructor
  · intro h
    have hv : ws.validate = .error "Weights must sum to 1.0" := by
      unfold OptimizationWeights.validate
      rw [if_pos h]
    unfold mkObjectiveFunction
    rw [hv]
  · intro h
    have hv : ws.validate = .ok () := by
      unfold OptimizationWeights.validate
      rw [if_neg (not_lt.mpr h)]
    unfold mkObjectiveFunction
    rw [hv]

theorem C9_weight_sum_validation_witness :
    ((0.001 : ℚ) <
        |(0.4 : ℚ) + (0.4 : ℚ) + (0.4 : ℚ) + (0 : ℚ) - 1|) ∧
      mkObjectiveFunction ⟨0.4, 0.4, 0.4, 0⟩ [] [] 0.01 0.005 0.1 5 =
        .error "Weights must sum to 1.0" ∧
      (|(0.35 : ℚ) + (0.3 : ℚ) + (0.2 : ℚ) + (0.15 : ℚ) - 1| ≤ (0.001 : ℚ)) ∧
      mkObjectiveFunction ⟨0.35, 0.3, 0.2, 0.15⟩ [] [] 0.01 0.005 0.1 5 =
        .ok ⟨⟨0.35, 0.3, 0.2, 0.15⟩, [], [], 0.01, 0.005, 0.1, 5⟩ := by
  have hbad : (0.001 : ℚ) < |(0.4 : ℚ) + (0.4 : ℚ) + (0.4 : ℚ) + (0 : ℚ) - 1| := by
    rw [show (0.4 : ℚ) + 0.4 + 0.4 + 0 - 1 = 1 / 5 from by norm_num,
      abs_of_nonneg (by norm_num : (0 : ℚ) ≤ 1 / 5)]
    norm_num
  have hgood : |(0.35 : ℚ) + (0.3 : ℚ) + (0.2 : ℚ) + (0.15 : ℚ) - 1| ≤ (0.001 : ℚ) := by
    rw [show (0.35 : ℚ) + 0.3 + 0.2 + 0.15 - 1 = 0 from by norm_num]
    norm_num
  exact ⟨hbad,
    (C9_weight_sum_validation ⟨0.4, 0.4, 0.4, 0⟩ [] [] 0.01 0.005 0.1 5).1 hbad,
    hgood,
    (C9_weight_sum_validation ⟨0.35, 0.3, 0.2, 0.15⟩ [] [] 0.01 0.005 0.1 5).2 hgood⟩

end Retrofit

/-! ### Claim theorems: travel-time model -/

namespace RetrofitReal

/-- C8: for nonnegative distance, positive cruise speed and acceleration,
nonnegative queue wait and any turn count and turn delay,
`TravelTimeCalculator.calculate` returns
`v/a + (d − v²/a)/v + v/a + n·t_turn + q` on the trapezoidal branch
(`d ≥ 2·d_a`, `d_a = v²/(2a)`) and `2·sqrt(a·d)/a + n·t_turn + q` on the
triangular branch. -/
theorem C8_travel_time_model (v a t_turn d q : ℝ) (n : ℕ) (hd : 0 ≤ d)
    (hv : 0 < v) (ha : 0 < a) (hq : 0 ≤ q) :
    (2 * (v ^ 2 / (2 * a)) ≤ d →
      (TravelTimeCalculator.calculate ⟨v, a, t_turn⟩ d n q).total_time =
        v / a + (d - v ^ 2 / a) / v + v / a + (n : ℝ) * t_turn + q) ∧
    (d < 2 * (v ^ 2 / (2 * a)) →
      (TravelTimeCalculator.calculate ⟨v, a, t_turn⟩ d n q).total_time =
        2 * Real.sqrt (a * d) / a + (n : ℝ) * t_turn + q) := by
  constructor
  · intro h
    have h2a : 2 * (v ^ 2 / (2 * a)) = v ^ 2 / a := by
      field_simp
      ring
    simp only [TravelTimeCalculator.calculate]
    rw [if_pos h]
    simp only [h2a]
  · intro h
    simp only [TravelTimeCalculator.calculate]
    rw [if_neg (not_le.mpr h)]
    ring

theorem C8_travel_time_model_witness :
    (0 : ℝ) ≤ 50 ∧ (0 : ℝ) < 1.5 ∧ (0 : ℝ) < 0.5 ∧ (0 : ℝ) ≤ 5 ∧
      ((2 * ((1.5 : ℝ) ^ 2 / (2 * 0.5)) ≤ 50 →
        (TravelTimeCalculator.calculate ⟨1.5, 0.5, 2⟩ 50 2 5).total_time =
          1.5 / 0.5 + (50 - (1.5 : ℝ) ^ 2 / 0.5) / 1.5 + 1.5 / 0.5 +
            ((2 : ℕ) : ℝ) * 2 + 5) ∧
      (50 < 2 * ((1.5 : ℝ) ^ 2 / (2 * 0.5)) →
        (TravelTimeCalculator.calculate ⟨1.5, 0.5, 2⟩ 50 2 5).total_time =
          2 * Real.sqrt (0.5 * 50) / 0.5 + ((2 : ℕ) : ℝ) * 2 + 5)) :=
  ⟨by norm_num, by norm_num, by norm_num, by norm_num,
    C8_travel_time_model 1.5 0.5 2 50 5 2 (by norm_num) (by norm_num)
      (by norm_num) (by norm_num)⟩

end RetrofitReal
